import Mathlib

/-!
Shallow embedding of the conversation dashboard's analyzable core:
the conversation-to-engagement resolver (`src/app/api/conversations/route.ts`),
the per-conversation message listing (messages route), and the mentor
response-time analyzer.  Definitions are translated from the TypeScript
source; theorems at the end settle the specification claims.
-/

/-- An engagement reference as selected by the routes: `{ uuid, title }`. -/
structure EngRef where
  uuid : String
  title : String
deriving DecidableEq, Repr

/-- Model of a JavaScript Map built as in the routes via
`new Map(list.map(x => [key(x), x]))` followed by `.get(k)`.
Later entries with the same key overwrite earlier ones, so lookup
returns the last element of the list with the given key (or none). -/
def jsMapGet {α : Type} (key : α → String) (l : List α) (k : String) : Option α :=
  match l with
  | [] => none
  | x :: rest =>
    match jsMapGet key rest k with
    | some r => some r
    | none => if key x = k then some x else none

/-- The request-scoped `userEngagementLookup` map: string keys to arrays of
engagement references, in insertion order. -/
abbrev Lookup := List (String × List EngRef)

/-- `Map.get` on the lookup table. -/
def lookGet (m : Lookup) (k : String) : Option (List EngRef) :=
  match m with
  | [] => none
  | (k0, v) :: rest => if k0 = k then some v else lookGet rest k

/-- `Map.set` on the lookup table: overwrite the first entry with the key,
or append a fresh entry at the end (JS insertion order). -/
def lookSet (m : Lookup) (k : String) (v : List EngRef) : Lookup :=
  match m with
  | [] => [(k, v)]
  | (k0, v0) :: rest => if k0 = k then (k0, v) :: rest else (k0, v0) :: lookSet rest k v

/-- `if (!map.has(k)) map.set(k, [])`. -/
def lookEnsure (m : Lookup) (k : String) : Lookup :=
  if (lookGet m k).isNone then lookSet m k [] else m

/-- One iteration of the inner double loop of `userEngagementLookup`
construction: ensure both `key1 = a_b` and `key2 = b_a` are present,
then push the engagement reference onto each (source lines 147-164). -/
def insertPair (e : EngRef) (m : Lookup) (a b : String) : Lookup :=
  let key1 := a ++ "_" ++ b
  let key2 := b ++ "_" ++ a
  let m2 := lookEnsure (lookEnsure m key1) key2
  let m3 := lookSet m2 key1 ((lookGet m2 key1).getD [] ++ [e])
  lookSet m3 key2 ((lookGet m3 key2).getD [] ++ [e])

/-- Inner loop `for j in (i+1 .. n)` pairing the participant `x` with each
later participant. -/
def pairLoopInner (e : EngRef) (x : String) (ys : List String) (m : Lookup) : Lookup :=
  ys.foldl (fun acc y => insertPair e acc x y) m

/-- Outer loop `for i in (0 .. n)` over all ordered index pairs `i < j`
of the participant list. -/
def pairLoop (e : EngRef) : List String → Lookup → Lookup
  | [], m => m
  | x :: xs, m => pairLoop e xs (pairLoopInner e x xs m)

/-- One row of `guardian_students` seen from the guardian side
(`select { studentUuid }`). -/
structure StudentLinkRow where
  studentUuid : String
deriving DecidableEq, Repr

/-- One row of `guardian_students` seen from the student side
(`select { guardianUuid }`). -/
structure GuardianLinkRow where
  guardianUuid : String
deriving DecidableEq, Repr

/-- The nested `users` record fetched for each engagement membership row. -/
structure EngagementMemberUser where
  uuid : String
  roles : List String
  guardian_students_guardian_students_guardianUuidTousers : List StudentLinkRow
  guardian_students_guardian_students_studentUuidTousers : List GuardianLinkRow
deriving DecidableEq, Repr

/-- One `users_engagements` membership row with its resolved user. -/
structure UsersEngagementRow where
  userUuid : String
  users : EngagementMemberUser
deriving DecidableEq, Repr

/-- An engagement as fetched for user-pair resolution
(`userEngagementsData` select). -/
structure EngagementWithMembers where
  uuid : String
  title : String
  users_engagements : List UsersEngagementRow
deriving DecidableEq, Repr

/-- Insertion into a JS `Set` materialised as an insertion-ordered
duplicate-free list (`Set.add`). -/
def setAdd (l : List String) (x : String) : List String :=
  if x ∈ l then l else l ++ [x]

/-- State of the role-classification `forEach`:
`(mentors, students, guardians)`. -/
abbrev RoleAcc := List String × List String × List String

/-- Body of the `engagement.users_engagements.forEach` classification
(source lines 125-140): mentors and students are pushed onto arrays,
guardians (derived from member students plus explicit guardian-role
members) are added to a `Set`. -/
def roleStep (acc : RoleAcc) (ue : UsersEngagementRow) : RoleAcc :=
  let u := ue.users
  let mentors := if u.roles.contains "mentor" then acc.1 ++ [u.uuid] else acc.1
  let students := if u.roles.contains "student" then acc.2.1 ++ [u.uuid] else acc.2.1
  let guardians0 :=
    if u.roles.contains "student" then
      u.guardian_students_guardian_students_studentUuidTousers.foldl
        (fun g gs => setAdd g gs.guardianUuid) acc.2.2
    else acc.2.2
  let guardians := if u.roles.contains "guardian" then setAdd guardians0 u.uuid else guardians0
  (mentors, students, guardians)

/-- `allParticipants = [...mentors, ...students, ...Array.from(guardians)]`
(source line 143). -/
def allParticipants (e : EngagementWithMembers) : List String :=
  let acc := e.users_engagements.foldl roleStep ([], [], [])
  acc.1 ++ acc.2.1 ++ acc.2.2

/-- Construction of the whole `userEngagementLookup` map
(source lines 118-167). -/
def buildLookup (engs : List EngagementWithMembers) : Lookup :=
  engs.foldl (fun m e => pairLoop { uuid := e.uuid, title := e.title } (allParticipants e) m) []

/-! ### Regex models

`cometConversationId` is matched against two JavaScript regexes with
leftmost-match semantics: the group pattern `group_group-(.+)` and the
pair pattern of two 36-character `[0-9a-f-]` captures joined by
`_user_`. -/

/-- Membership in the character class `[0-9a-f-]`. -/
def isHexDashChar (c : Char) : Bool :=
  c.isDigit || (97 ≤ c.toNat && c.toNat ≤ 102) || c = '-'

/-- A character matched by `.` in a JavaScript regex (anything but a
line terminator). -/
def isDotChar (c : Char) : Bool :=
  !(c = '\n' || c = '\r' || c.toNat = 0x2028 || c.toNat = 0x2029)

/-- Attempt the pair pattern `([0-9a-f-]{36})_user_([0-9a-f-]{36})`
anchored at the start of the character list. -/
def tryPairAt (cs : List Char) : Option (String × String) :=
  let g1 := cs.take 36
  let rest := cs.drop 36
  let sep := rest.take 6
  let g2 := (rest.drop 6).take 36
  if g1.length = 36 && g1.all isHexDashChar && sep = "_user_".data
      && g2.length = 36 && g2.all isHexDashChar then
    some (String.mk g1, String.mk g2)
  else
    none

/-- Leftmost search for the pair pattern. -/
def pairSearch : List Char → Option (String × String)
  | [] => none
  | c :: cs =>
    match tryPairAt (c :: cs) with
    | some r => some r
    | none => pairSearch cs

/-- `cometConversationId.match(/([0-9a-f-]{36})_user_([0-9a-f-]{36})/)`,
returning the two captures. -/
def pairMatch (s : String) : Option (String × String) :=
  pairSearch s.data

/-- Attempt the group pattern `group_group-(.+)` anchored at the start of
the character list; the greedy `.+` capture runs to the end of the line. -/
def tryGroupAt (cs : List Char) : Option String :=
  if cs.take 12 = "group_group-".data then
    let cap := (cs.drop 12).takeWhile isDotChar
    if cap.length > 0 then some (String.mk cap) else none
  else
    none

/-- Leftmost search for the group pattern. -/
def groupSearch : List Char → Option String
  | [] => none
  | c :: cs =>
    match tryGroupAt (c :: cs) with
    | some r => some r
    | none => groupSearch cs

/-- `cometConversationId.match(/group_group-(.+)/)`, returning the capture. -/
def groupMatch (s : String) : Option String :=
  groupSearch s.data

/-! ### Conversation annotation -/

/-- A conversation row as fetched by the conversations route. -/
structure Conversation where
  uuid : String
  userUuids : List String
  createdAt : Int
  updatedAt : Int
  cometConversationId : String
  cometConversationType : String
deriving DecidableEq, Repr

/-- A user row as fetched by the conversations route. -/
structure UserDetails where
  uuid : String
  firstName : String
  lastName : String
  fullName : String
  roles : List String
  email : String
deriving DecidableEq, Repr

/-- One entry of the `users` field of an annotated conversation. -/
structure UserEntry where
  uuid : String
  details : Option UserDetails
deriving DecidableEq, Repr

/-- The annotated conversation record returned by the conversations route. -/
structure AnnotatedConversation where
  uuid : String
  userUuids : List String
  createdAt : Int
  updatedAt : Int
  cometConversationId : String
  cometConversationType : String
  engagementUuid : Option String
  engagement : Option EngRef
  engagements : List EngRef
  users : List UserEntry
deriving DecidableEq, Repr

/-- The `engagementUuid` / `engagement` / `engagements` triple computed for
one conversation (source lines 175-203); `engagements` stays `none` (JS
`null`) on the paths that never assign it. -/
def resolveFields (groupEngagements : List EngRef) (lookup : Lookup) (c : Conversation) :
    Option String × Option EngRef × Option (List EngRef) :=
  if c.cometConversationType = "group" then
    match groupMatch c.cometConversationId with
    | some frag => (some frag, jsMapGet EngRef.uuid groupEngagements frag, none)
    | none => (none, none, none)
  else if c.cometConversationType = "user" then
    match pairMatch c.cometConversationId with
    | some (userUuid1, userUuid2) =>
      match (lookGet lookup (userUuid1 ++ "_" ++ userUuid2)).getD [] with
      | [e] => (some e.uuid, some e, some [e])
      | l => (none, none, some l)
    | none => (none, none, none)
  else (none, none, none)

/-- Resolution of a single conversation (body of the
`conversations.map` at source lines 174-215). -/
def annotateConversation (groupEngagements : List EngRef) (lookup : Lookup)
    (users : List UserDetails) (c : Conversation) : AnnotatedConversation :=
  { uuid := c.uuid
    userUuids := c.userUuids
    createdAt := c.createdAt
    updatedAt := c.updatedAt
    cometConversationId := c.cometConversationId
    cometConversationType := c.cometConversationType
    engagementUuid := (resolveFields groupEngagements lookup c).1
    engagement := (resolveFields groupEngagements lookup c).2.1
    engagements := ((resolveFields groupEngagements lookup c).2.2).getD []
    users := c.userUuids.map (fun uuid => { uuid := uuid, details := jsMapGet UserDetails.uuid users uuid }) }

/-- The whole resolution step of the conversations route: build the pair
lookup once, then annotate every conversation. -/
def conversationsGET (conversations : List Conversation) (users : List UserDetails)
    (groupEngagements : List EngRef) (userEngagementsData : List EngagementWithMembers) :
    List AnnotatedConversation :=
  conversations.map (annotateConversation groupEngagements (buildLookup userEngagementsData) users)

/-! ### Messages route -/

/-- A message row of the messages table, with the fields the messages
route selects plus the `conversationUuid` and `deletedAt` columns used
in its `where` clause. -/
structure MessageRow where
  uuid : String
  conversationUuid : String
  senderUuid : String
  text : String
  createdAt : Int
  updatedAt : Int
  deletedAt : Option Int
  readBy : List String
  readByAll : Bool
deriving DecidableEq, Repr

/-- A sender row as selected by the messages route. -/
structure SenderDetails where
  uuid : String
  firstName : String
  lastName : String
  fullName : String
  roles : List String
  email : String
  profilePictureUrl : String
deriving DecidableEq, Repr

/-- A message annotated with its resolved sender (`messagesWithSenders`). -/
structure MessageWithSender where
  uuid : String
  senderUuid : String
  text : String
  createdAt : Int
  updatedAt : Int
  readBy : List String
  readByAll : Bool
  sender : Option SenderDetails
deriving DecidableEq, Repr

/-- The `where conversationUuid = c, deletedAt: null` filter of the
messages query. -/
def messageBelongs (conversationUuid : String) (m : MessageRow) : Bool :=
  m.conversationUuid = conversationUuid && m.deletedAt = none

/-- `{ ...message, sender: senderMap.get(message.senderUuid) || null }`. -/
def attachSender (senders : List SenderDetails) (m : MessageRow) : MessageWithSender :=
  { uuid := m.uuid
    senderUuid := m.senderUuid
    text := m.text
    createdAt := m.createdAt
    updatedAt := m.updatedAt
    readBy := m.readBy
    readByAll := m.readByAll
    sender := jsMapGet SenderDetails.uuid senders m.senderUuid }

/-- The messages route for one conversation: select the conversation's
non-deleted messages ordered by `createdAt` ascending, then annotate each
with the resolved sender (or null). -/
def messagesGET (allMessages : List MessageRow) (senders : List SenderDetails)
    (conversationUuid : String) : List MessageWithSender :=
  let messages :=
    (allMessages.filter (messageBelongs conversationUuid)).mergeSort
      (fun a b => a.createdAt ≤ b.createdAt)
  messages.map (attachSender senders)

/-! ### Mentor response-time analyzer

The analyzer lives in `src/utils/mentorResponseTime.ts`, which is not part
of the provided sources (only its caller in `page.tsx` is), so it is
modelled from the specification. -/

/-- A message as consumed by the analyzer: creation time in milliseconds
and the resolved sender's role list (none when the sender no longer
resolves). -/
structure AnalyzerMessage where
  uuid : String
  createdAt : Int
  senderRoles : Option (List String)
deriving DecidableEq, Repr

/-- A message is mentor-authored when its sender resolves and the role
set includes the mentor role; a null sender counts as non-mentor. -/
def isMentorMessage (m : AnalyzerMessage) : Bool :=
  match m.senderRoles with
  | some rs => rs.contains "mentor"
  | none => false

/-- One response sample: a mentor message paired with its nearest
preceding non-mentor message and the positive latency between them. -/
structure ResponseSample where
  responseTimeMs : Int
  mentorMessage : AnalyzerMessage
  precedingNonMentorMessage : AnalyzerMessage
deriving DecidableEq, Repr

/-- Modelled from the spec: the per-mentor-message backward scan of
`calculateMentorAverageResponseTime` (missing `src/utils/mentorResponseTime.ts`).
`seen` holds the already-scanned earlier messages, most recent first, so
`seen.find?` of a non-mentor message is the nearest preceding non-mentor
message.  A sample is kept only when its latency is strictly positive. -/
def samplesAux (seen : List AnalyzerMessage) : List AnalyzerMessage → List ResponseSample
  | [] => []
  | m :: rest =>
    let here :=
      if isMentorMessage m then
        match seen.find? (fun p => !isMentorMessage p) with
        | some p =>
          let dt := m.createdAt - p.createdAt
          if 0 < dt then
            [{ responseTimeMs := dt, mentorMessage := m, precedingNonMentorMessage := p }]
          else []
        | none => []
      else []
    here ++ samplesAux (m :: seen) rest

/-- Two-digit zero padding of a natural number. -/
def pad2 (n : Nat) : String :=
  if n < 10 then "0" ++ toString n else toString n

/-- Modelled from the spec: render an average latency in milliseconds as
zero-padded `HH:MM`; hours are not wrapped at 24. -/
def formatHM (ms : ℚ) : String :=
  let totalMinutes : Nat := (Int.floor (ms / 60000)).toNat
  pad2 (totalMinutes / 60) ++ ":" ++ pad2 (totalMinutes % 60)

/-- The analyzer's non-null result object. -/
structure MentorResponseStats where
  averageTimeMs : ℚ
  averageTimeFormatted : String
  responseCount : Nat
  responseTimes : List ResponseSample
deriving DecidableEq, Repr

/-- Modelled from the spec: `calculateMentorAverageResponseTime` (missing
`src/utils/mentorResponseTime.ts`).  Collect the qualifying response
samples; with no sample the result is null, otherwise the average of the
sampled latencies is reported together with their count, its `HH:MM`
rendering, and the samples themselves in mentor-message order. -/
def calculateMentorAverageResponseTime (messages : List AnalyzerMessage) :
    Option MentorResponseStats :=
  match samplesAux [] messages with
  | [] => none
  | s :: ss =>
    let samples := s :: ss
    let total : Int := (samples.map ResponseSample.responseTimeMs).sum
    let avg : ℚ := (total : ℚ) / (samples.length : ℚ)
    some
      { averageTimeMs := avg
        averageTimeFormatted := formatHM avg
        responseCount := samples.length
        responseTimes := samples }

/-- The equivalent single forward pass of the spec's complexity note:
track the most recent non-mentor message and pair every mentor message
against it.  Used to state the pairing semantics independently of the
backward scan. -/
def forwardSamples (lastNonMentor : Option AnalyzerMessage) :
    List AnalyzerMessage → List ResponseSample
  | [] => []
  | m :: rest =>
    if isMentorMessage m then
      (match lastNonMentor with
       | some p =>
         let dt := m.createdAt - p.createdAt
         if 0 < dt then
           [{ responseTimeMs := dt, mentorMessage := m, precedingNonMentorMessage := p }]
         else []
       | none => []) ++ forwardSamples lastNonMentor rest
    else
      forwardSamples (some m) rest

/-- A qualifying response sample exists in a message list: some mentor
message has a nearest preceding non-mentor message (every message in
between is mentor-authored) at strictly positive latency. -/
def QualifyingSampleExists (messages : List AnalyzerMessage) : Prop :=
  ∃ pre p mid m post, messages = pre ++ p :: (mid ++ m :: post) ∧
    isMentorMessage p = false ∧ (∀ x ∈ mid, isMentorMessage x = true) ∧
    isMentorMessage m = true ∧ 0 < m.createdAt - p.createdAt

/-! ### Lookup-table lemmas -/

theorem lookGet_lookSet_self (m : Lookup) (k : String) (v : List EngRef) :
    lookGet (lookSet m k v) k = some v := by
  induction m with
  | nil => simp [lookSet, lookGet]
  | cons hd tl ih =>
    obtain ⟨k0, v0⟩ := hd
    by_cases h : k0 = k
    · simp [lookSet, lookGet, h]
    · simp [lookSet, lookGet, h, ih]

theorem lookGet_lookSet_ne (m : Lookup) (k k2 : String) (v : List EngRef)
    (h : k ≠ k2) : lookGet (lookSet m k v) k2 = lookGet m k2 := by
  induction m with
  | nil => simp [lookSet, lookGet, h]
  | cons hd tl ih =>
    obtain ⟨k0, v0⟩ := hd
    by_cases h0 : k0 = k
    · subst h0
      simp [lookSet, lookGet, h]
    · simp [lookSet, lookGet, h0, ih]

theorem lookEnsure_get_self (m : Lookup) (k : String) :
    lookGet (lookEnsure m k) k = some ((lookGet m k).getD []) := by
  unfold lookEnsure
  cases h : lookGet m k with
  | none => simp [h, lookGet_lookSet_self]
  | some v => simp [h]

theorem lookEnsure_get_ne (m : Lookup) (k k2 : String) (h : k ≠ k2) :
    lookGet (lookEnsure m k) k2 = lookGet m k2 := by
  unfold lookEnsure
  cases h0 : lookGet m k with
  | none => simp [lookGet_lookSet_ne m k k2 [] h]
  | some v => simp

/-- Accumulation of pushes on an optional array: the absent key stays
absent when nothing is pushed, and otherwise the pushes are appended to
the (defaulted) current array. -/
def addOpt (o : Option (List EngRef)) (xs : List EngRef) : Option (List EngRef) :=
  match xs with
  | [] => o
  | _ => some (o.getD [] ++ xs)

theorem addOpt_append (o : Option (List EngRef)) (xs ys : List EngRef) :
    addOpt (addOpt o xs) ys = addOpt o (xs ++ ys) := by
  cases xs with
  | nil => simp [addOpt]
  | cons a as =>
    cases ys with
    | nil => simp [addOpt]
    | cons b bs => simp [addOpt, List.append_assoc]

theorem addOpt_getD (o : Option (List EngRef)) (xs : List EngRef) :
    (addOpt o xs) = none ∨ ∃ l, addOpt o xs = some l := by
  cases addOpt o xs <;> simp

theorem addOpt_none_getD (xs : List EngRef) : (addOpt none xs).getD [] = xs := by
  cases xs <;> simp [addOpt]

/-- The pushes a single inner-loop iteration over the ordered pair
`(a, b)` makes onto the key `k`. -/
def pairPush (e : EngRef) (a b k : String) : List EngRef :=
  (if a ++ "_" ++ b = k then [e] else []) ++ (if b ++ "_" ++ a = k then [e] else [])

theorem insertPair_lookGet (e : EngRef) (m : Lookup) (a b k : String) :
    lookGet (insertPair e m a b) k = addOpt (lookGet m k) (pairPush e a b k) := by
  by_cases h1 : a ++ "_" ++ b = k
  · subst h1
    by_cases h2 : b ++ "_" ++ a = a ++ "_" ++ b
    · -- both keys coincide
      simp only [insertPair, pairPush, h2, lookGet_lookSet_self, lookEnsure_get_self,
        Option.getD_some]
      cases h : lookGet m (a ++ "_" ++ b) <;> simp [addOpt, h]
    · -- key1 = k, key2 ≠ k
      simp only [insertPair, pairPush, lookGet_lookSet_self, lookGet_lookSet_ne _ _ _ _ h2,
        lookEnsure_get_self, lookEnsure_get_ne _ _ _ h2, Option.getD_some]
      cases h : lookGet m (a ++ "_" ++ b) <;> simp [addOpt, h, h2]
  · by_cases h2 : b ++ "_" ++ a = k
    · -- key2 = k, key1 ≠ k
      subst h2
      simp only [insertPair, pairPush, lookGet_lookSet_self, lookGet_lookSet_ne _ _ _ _ h1,
        lookEnsure_get_self, lookEnsure_get_ne _ _ _ h1, Option.getD_some]
      cases h : lookGet m (b ++ "_" ++ a) <;> simp [addOpt, h, h1]
    · -- neither key equals k
      simp only [insertPair, pairPush, lookGet_lookSet_ne _ _ _ _ h1,
        lookGet_lookSet_ne _ _ _ _ h2, lookEnsure_get_ne _ _ _ h1, lookEnsure_get_ne _ _ _ h2]
      cases h : lookGet m k <;> simp [addOpt, h, h1, h2]

/-- All ordered index pairs `i < j` of a list, as element pairs in loop
order. -/
def pairsList : List String → List (String × String)
  | [] => []
  | x :: xs => xs.map (fun y => (x, y)) ++ pairsList xs

/-- All pushes one engagement's double loop makes onto the key `k`. -/
def engPush (e : EngRef) (ps : List String) (k : String) : List EngRef :=
  ((pairsList ps).map (fun ab => pairPush e ab.1 ab.2 k)).flatten

theorem pairLoopInner_lookGet (e : EngRef) (x : String) (ys : List String) (m : Lookup)
    (k : String) :
    lookGet (pairLoopInner e x ys m) k
      = addOpt (lookGet m k) ((ys.map (fun y => pairPush e x y k)).flatten) := by
  induction ys generalizing m with
  | nil => simp [pairLoopInner, addOpt]
  | cons y ys ih =>
    simp only [pairLoopInner, List.foldl_cons] at *
    rw [ih (insertPair e m x y), insertPair_lookGet, addOpt_append]
    simp

theorem pairLoop_lookGet (e : EngRef) (ps : List String) (m : Lookup) (k : String) :
    lookGet (pairLoop e ps m) k = addOpt (lookGet m k) (engPush e ps k) := by
  induction ps generalizing m with
  | nil => simp [pairLoop, engPush, pairsList, addOpt]
  | cons x xs ih =>
    simp only [pairLoop]
    rw [ih, pairLoopInner_lookGet, addOpt_append]
    simp only [engPush, pairsList, List.map_append, List.flatten_append, List.map_map]
    rfl

/-- All pushes the whole lookup construction makes onto the key `k`. -/
def totalPush (engs : List EngagementWithMembers) (k : String) : List EngRef :=
  (engs.map (fun e => engPush { uuid := e.uuid, title := e.title } (allParticipants e) k)).flatten

theorem buildLookup_lookGet (engs : List EngagementWithMembers) (k : String) :
    lookGet (buildLookup engs) k = addOpt none (totalPush engs k) := by
  have main : ∀ (l : List EngagementWithMembers) (m : Lookup),
      lookGet (l.foldl (fun acc e =>
        pairLoop { uuid := e.uuid, title := e.title } (allParticipants e) acc) m) k
        = addOpt (lookGet m k) (totalPush l k) := by
    intro l
    induction l with
    | nil => intro m; simp [totalPush, addOpt]
    | cons e es ih =>
      intro m
      simp only [List.foldl_cons]
      rw [ih, pairLoop_lookGet, addOpt_append]
      simp only [totalPush, List.map_cons, List.flatten_cons]
  have h := main engs []
  simpa [buildLookup, lookGet] using h

/-! ### Key equality and counting -/

/-- A string with no underscore character; UUID captures of the pair
pattern satisfy this. -/
def NoUnderscore (s : String) : Prop := '_' ∉ s.data

theorem concat_underscore_inj : ∀ (xs : List Char) (b : List Char) (us v : List Char),
    '_' ∉ us → '_' ∉ v → xs ++ '_' :: b = us ++ '_' :: v → xs = us ∧ b = v := by
  intro xs
  induction xs with
  | nil =>
    intro b us v hus hv h
    cases us with
    | nil => simpa using h
    | cons u0 us2 =>
      simp only [List.nil_append, List.cons_append, List.cons.injEq] at h
      exact absurd (h.1 ▸ List.mem_cons_self u0 us2) hus
  | cons x xs2 ih =>
    intro b us v hus hv h
    cases us with
    | nil =>
      simp only [List.cons_append, List.nil_append, List.cons.injEq] at h
      exact absurd (h.2 ▸ (List.mem_append_right xs2 (List.mem_cons_self '_' b))) hv
    | cons u0 us2 =>
      simp only [List.cons_append, List.cons.injEq] at h
      obtain ⟨hx, hrest⟩ := h
      have hus2 : '_' ∉ us2 := fun hm => hus (List.mem_cons_of_mem _ hm)
      obtain ⟨h1, h2⟩ := ih b us2 v hus2 hv hrest
      exact ⟨by rw [hx, h1], h2⟩

theorem key_eq_iff (a b u v : String) (hu : NoUnderscore u) (hv : NoUnderscore v) :
    a ++ "_" ++ b = u ++ "_" ++ v ↔ (a = u ∧ b = v) := by
  constructor
  · intro h
    have hd : a.data ++ '_' :: b.data = u.data ++ '_' :: v.data := by
      have := congrArg String.data h
      simpa [String.data_append] using this
    obtain ⟨h1, h2⟩ := concat_underscore_inj a.data b.data u.data v.data hu hv hd
    exact ⟨String.ext h1, String.ext h2⟩
  · rintro ⟨rfl, rfl⟩
    rfl

/-- The loop pair `(a, b)` hits the unordered pair `(u1, u2)`. -/
def pairHit (u1 u2 : String) (ab : String × String) : Bool :=
  (ab.1 = u1 && ab.2 = u2) || (ab.1 = u2 && ab.2 = u1)

theorem pairPush_eq_ite (e : EngRef) (a b u1 u2 : String) (h1 : NoUnderscore u1)
    (h2 : NoUnderscore u2) (hne : u1 ≠ u2) :
    pairPush e a b (u1 ++ "_" ++ u2) = if pairHit u1 u2 (a, b) then [e] else [] := by
  unfold pairPush pairHit
  have e1 : (a ++ "_" ++ b = u1 ++ "_" ++ u2) = (a = u1 ∧ b = u2) :=
    propext (key_eq_iff a b u1 u2 h1 h2)
  have e2 : (b ++ "_" ++ a = u1 ++ "_" ++ u2) = (b = u1 ∧ a = u2) :=
    propext (key_eq_iff b a u1 u2 h1 h2)
  simp only [e1, e2]
  by_cases c1 : a = u1 ∧ b = u2
  · by_cases c2 : b = u1 ∧ a = u2
    · exact absurd (c1.1 ▸ c2.2) hne
    · simp [c1.1, c1.2, c2, Ne.symm hne]
  · by_cases c2 : b = u1 ∧ a = u2
    · simp [c2.1, c2.2, c1, hne]
    · have c2a : ¬(a = u2 ∧ b = u1) := fun h => c2 ⟨h.2, h.1⟩
      simp [c1, c2, c2a]

theorem flatten_map_ite {β : Type} (p : β → Bool) (l : List β) (e : EngRef) :
    (l.map (fun x => if p x then [e] else [])).flatten = List.replicate (l.countP p) e := by
  induction l with
  | nil => simp
  | cons x xs ih =>
    by_cases hx : p x
    · simp [hx, ih, List.countP_cons, List.replicate_succ]
    · simp [hx, ih, List.countP_cons]

theorem engPush_eq_replicate (e : EngRef) (ps : List String) (u1 u2 : String)
    (h1 : NoUnderscore u1) (h2 : NoUnderscore u2) (hne : u1 ≠ u2) :
    engPush e ps (u1 ++ "_" ++ u2)
      = List.replicate ((pairsList ps).countP (pairHit u1 u2)) e := by
  unfold engPush
  have : ((pairsList ps).map (fun ab => pairPush e ab.1 ab.2 (u1 ++ "_" ++ u2)))
      = (pairsList ps).map (fun ab => if pairHit u1 u2 ab then [e] else []) := by
    apply List.map_congr_left
    intro ab _
    exact pairPush_eq_ite e ab.1 ab.2 u1 u2 h1 h2 hne
  rw [this]
  exact flatten_map_ite (pairHit u1 u2) (pairsList ps) e

theorem count_eq_countP_decEq (a : String) (l : List String) :
    l.count a = l.countP (fun y => y = a) := by
  rw [List.count_eq_countP]
  apply List.countP_congr
  intro y _
  simp

theorem countP_pairsList (u1 u2 : String) (hne : u1 ≠ u2) (ps : List String) :
    (pairsList ps).countP (pairHit u1 u2) = ps.count u1 * ps.count u2 := by
  induction ps with
  | nil => simp [pairsList]
  | cons x xs ih =>
    simp only [pairsList, List.countP_append, List.countP_map, ih, List.count_cons]
    by_cases hx1 : x = u1
    · subst hx1
      have hcomp : ((pairHit x u2) ∘ fun y => (x, y)) = fun y => decide (y = u2) := by
        funext y
        simp [pairHit, Function.comp, hne]
      rw [hcomp, ← count_eq_countP_decEq u2 xs]
      have hbx1 : (x == x) = true := by simp
      have hbx2 : (x == u2) = false := by simp [hne]
      rw [hbx1, hbx2]
      simp
      ring
    · by_cases hx2 : x = u2
      · subst hx2
        have hcomp : ((pairHit u1 x) ∘ fun y => (x, y)) = fun y => decide (y = u1) := by
          funext y
          simp [pairHit, Function.comp, hx1]
        rw [hcomp, ← count_eq_countP_decEq u1 xs]
        have hbx1 : (x == u1) = false := by simp [hx1]
        have hbx2 : (x == x) = true := by simp
        rw [hbx1, hbx2]
        simp
        ring
      · have hcomp : ((pairHit u1 u2) ∘ fun y => (x, y)) = fun _ => false := by
          funext y
          simp [pairHit, Function.comp, hx1, hx2]
        rw [hcomp]
        have hbx1 : (x == u1) = false := by simp [hx1]
        have hbx2 : (x == u2) = false := by simp [hx2]
        rw [hbx1, hbx2]
        simp [List.countP_false]

/-- An engagement connects the pair `(u1, u2)`: both appear in its
eligible-participant enumeration. -/
def connectsPair (u1 u2 : String) (e : EngagementWithMembers) : Bool :=
  (allParticipants e).contains u1 && (allParticipants e).contains u2

theorem contains_true_iff (l : List String) (a : String) : l.contains a = true ↔ a ∈ l :=
  List.elem_iff

theorem engPush_eq_nil_of_not_connects (e : EngagementWithMembers) (r : EngRef)
    (u1 u2 : String) (h1 : NoUnderscore u1) (h2 : NoUnderscore u2) (hne : u1 ≠ u2)
    (hc : ¬connectsPair u1 u2 e = true) :
    engPush r (allParticipants e) (u1 ++ "_" ++ u2) = [] := by
  rw [engPush_eq_replicate r (allParticipants e) u1 u2 h1 h2 hne,
    countP_pairsList u1 u2 hne]
  unfold connectsPair at hc
  rw [Bool.and_eq_true, contains_true_iff, contains_true_iff] at hc
  rcases Decidable.not_and_iff_or_not.mp hc with h | h
  · rw [List.count_eq_zero.mpr h, Nat.zero_mul, List.replicate_zero]
  · rw [List.count_eq_zero.mpr h, Nat.mul_zero, List.replicate_zero]

theorem totalPush_eq_nil (engs : List EngagementWithMembers) (u1 u2 : String)
    (h1 : NoUnderscore u1) (h2 : NoUnderscore u2) (hne : u1 ≠ u2)
    (hf : engs.filter (connectsPair u1 u2) = []) :
    totalPush engs (u1 ++ "_" ++ u2) = [] := by
  induction engs with
  | nil => simp [totalPush]
  | cons e es ih =>
    rw [List.filter_cons] at hf
    by_cases hc : connectsPair u1 u2 e = true
    · simp [hc] at hf
    · simp only [hc, Bool.false_eq_true, if_false] at hf
      simp only [totalPush, List.map_cons, List.flatten_cons] at *
      rw [engPush_eq_nil_of_not_connects e _ u1 u2 h1 h2 hne hc, ih hf, List.nil_append]

theorem totalPush_eq_single (engs : List EngagementWithMembers)
    (E : EngagementWithMembers) (u1 u2 : String)
    (h1 : NoUnderscore u1) (h2 : NoUnderscore u2) (hne : u1 ≠ u2)
    (hf : engs.filter (connectsPair u1 u2) = [E])
    (hc1 : (allParticipants E).count u1 = 1) (hc2 : (allParticipants E).count u2 = 1) :
    totalPush engs (u1 ++ "_" ++ u2) = [{ uuid := E.uuid, title := E.title }] := by
  induction engs with
  | nil => simp at hf
  | cons e es ih =>
    rw [List.filter_cons] at hf
    by_cases hc : connectsPair u1 u2 e = true
    · simp only [hc, if_true] at hf
      obtain ⟨rfl, hrest⟩ := List.cons.injEq e _ E [] ▸ hf
      simp only [totalPush, List.map_cons, List.flatten_cons]
      rw [engPush_eq_replicate _ _ u1 u2 h1 h2 hne, countP_pairsList u1 u2 hne, hc1, hc2]
      have := totalPush_eq_nil es u1 u2 h1 h2 hne hrest
      simp only [totalPush] at this
      rw [this]
      simp
    · simp only [hc, Bool.false_eq_true, if_false] at hf
      simp only [totalPush, List.map_cons, List.flatten_cons]
      rw [engPush_eq_nil_of_not_connects e _ u1 u2 h1 h2 hne hc, List.nil_append]
      exact ih hf

theorem filter_length_le_totalPush (engs : List EngagementWithMembers) (u1 u2 : String)
    (h1 : NoUnderscore u1) (h2 : NoUnderscore u2) (hne : u1 ≠ u2) :
    (engs.filter (connectsPair u1 u2)).length ≤ (totalPush engs (u1 ++ "_" ++ u2)).length := by
  induction engs with
  | nil => simp [totalPush]
  | cons e es ih =>
    rw [List.filter_cons]
    simp only [totalPush, List.map_cons, List.flatten_cons, List.length_append]
    by_cases hc : connectsPair u1 u2 e = true
    · simp only [hc, if_true, List.length_cons]
      have hmem := hc
      unfold connectsPair at hmem
      rw [Bool.and_eq_true, contains_true_iff, contains_true_iff] at hmem
      have hp1 : 0 < (allParticipants e).count u1 := List.count_pos_iff.mpr hmem.1
      have hp2 : 0 < (allParticipants e).count u2 := List.count_pos_iff.mpr hmem.2
      have hlen : 0 < (engPush { uuid := e.uuid, title := e.title } (allParticipants e)
          (u1 ++ "_" ++ u2)).length := by
        rw [engPush_eq_replicate _ _ u1 u2 h1 h2 hne, countP_pairsList u1 u2 hne,
          List.length_replicate]
        exact Nat.mul_pos hp1 hp2
      have ih2 : (List.filter (connectsPair u1 u2) es).length
          ≤ ((List.map (fun e => engPush { uuid := e.uuid, title := e.title }
            (allParticipants e) (u1 ++ "_" ++ u2)) es).flatten).length := by
        simpa [totalPush] using ih
      omega
    · simp only [hc, Bool.false_eq_true, if_false]
      have ih2 : (List.filter (connectsPair u1 u2) es).length
          ≤ ((List.map (fun e => engPush { uuid := e.uuid, title := e.title }
            (allParticipants e) (u1 ++ "_" ++ u2)) es).flatten).length := by
        simpa [totalPush] using ih
      omega

theorem mem_totalPush_iff (engs : List EngagementWithMembers) (u1 u2 : String)
    (h1 : NoUnderscore u1) (h2 : NoUnderscore u2) (hne : u1 ≠ u2) (r : EngRef) :
    r ∈ totalPush engs (u1 ++ "_" ++ u2)
      ↔ ∃ e ∈ engs, connectsPair u1 u2 e = true ∧ r = { uuid := e.uuid, title := e.title } := by
  unfold totalPush
  rw [List.mem_flatten]
  constructor
  · rintro ⟨l, hl, hr⟩
    rw [List.mem_map] at hl
    obtain ⟨e, he, rfl⟩ := hl
    rw [engPush_eq_replicate _ _ u1 u2 h1 h2 hne, countP_pairsList u1 u2 hne] at hr
    rw [List.mem_replicate] at hr
    obtain ⟨hn, rfl⟩ := hr
    refine ⟨e, he, ?_, rfl⟩
    have hn1 : (allParticipants e).count u1 ≠ 0 := fun h => hn (by rw [h, Nat.zero_mul])
    have hn2 : (allParticipants e).count u2 ≠ 0 := fun h => hn (by rw [h, Nat.mul_zero])
    unfold connectsPair
    rw [Bool.and_eq_true, contains_true_iff, contains_true_iff]
    exact ⟨List.count_pos_iff.mp (Nat.pos_of_ne_zero hn1),
      List.count_pos_iff.mp (Nat.pos_of_ne_zero hn2)⟩
  · rintro ⟨e, he, hc, rfl⟩
    refine ⟨engPush { uuid := e.uuid, title := e.title } (allParticipants e) (u1 ++ "_" ++ u2),
      List.mem_map.mpr ⟨e, he, rfl⟩, ?_⟩
    rw [engPush_eq_replicate _ _ u1 u2 h1 h2 hne, countP_pairsList u1 u2 hne]
    unfold connectsPair at hc
    rw [Bool.and_eq_true, contains_true_iff, contains_true_iff] at hc
    rw [List.mem_replicate]
    exact ⟨Nat.pos_iff_ne_zero.mp
      (Nat.mul_pos (List.count_pos_iff.mpr hc.1) (List.count_pos_iff.mpr hc.2)), rfl⟩

/-! ### Membership in the role classification -/

/-- Membership anywhere in the classification accumulator. -/
def accMem (acc : RoleAcc) (x : String) : Prop :=
  x ∈ acc.1 ∨ x ∈ acc.2.1 ∨ x ∈ acc.2.2

theorem setAdd_mem_of_mem (l : List String) (x y : String) (h : x ∈ l) :
    x ∈ setAdd l y := by
  unfold setAdd
  split
  · exact h
  · exact List.mem_append_left _ h

theorem setAdd_mem_self (l : List String) (y : String) : y ∈ setAdd l y := by
  unfold setAdd
  split
  · assumption
  · exact List.mem_append_right _ (List.mem_singleton.mpr rfl)

theorem foldl_setAdd_mem_of_mem (links : List GuardianLinkRow) (g : List String)
    (x : String) (h : x ∈ g) :
    x ∈ links.foldl (fun acc gs => setAdd acc gs.guardianUuid) g := by
  induction links generalizing g with
  | nil => exact h
  | cons gl rest ih => exact ih _ (setAdd_mem_of_mem g x gl.guardianUuid h)

theorem foldl_setAdd_mem_link (links : List GuardianLinkRow) (g : List String)
    (x : String) (h : ∃ gl ∈ links, gl.guardianUuid = x) :
    x ∈ links.foldl (fun acc gs => setAdd acc gs.guardianUuid) g := by
  induction links generalizing g with
  | nil => simp at h
  | cons gl rest ih =>
    rcases h with ⟨gl0, hgl0, hx⟩
    rcases List.mem_cons.mp hgl0 with rfl | hmem
    · exact foldl_setAdd_mem_of_mem rest _ x (hx ▸ setAdd_mem_self g gl0.guardianUuid)
    · exact ih _ ⟨gl0, hmem, hx⟩

theorem roleStep_accMem_mono (acc : RoleAcc) (ue : UsersEngagementRow) (x : String)
    (h : accMem acc x) : accMem (roleStep acc ue) x := by
  obtain ⟨m, s, g⟩ := acc
  simp only [roleStep, accMem] at *
  rcases h with h | h | h
  · left
    split
    · exact List.mem_append_left _ h
    · exact h
  · right; left
    split
    · exact List.mem_append_left _ h
    · exact h
  · right; right
    have h1 : x ∈ (if ue.users.roles.contains "student" = true then
        List.foldl (fun g gs => setAdd g gs.guardianUuid) g
          ue.users.guardian_students_guardian_students_studentUuidTousers
      else g) := by
      split
      · exact foldl_setAdd_mem_of_mem _ g x h
      · exact h
    split
    · exact setAdd_mem_of_mem _ x _ h1
    · exact h1

theorem foldl_roleStep_accMem_mono (ues : List UsersEngagementRow) (acc : RoleAcc)
    (x : String) (h : accMem acc x) : accMem (ues.foldl roleStep acc) x := by
  induction ues generalizing acc with
  | nil => exact h
  | cons ue rest ih => exact ih _ (roleStep_accMem_mono acc ue x h)

theorem roleStep_guardian_mem (acc : RoleAcc) (ue : UsersEngagementRow) (G : String)
    (hstud : ue.users.roles.contains "student" = true)
    (hg : ∃ gl ∈ ue.users.guardian_students_guardian_students_studentUuidTousers,
      gl.guardianUuid = G) :
    accMem (roleStep acc ue) G := by
  obtain ⟨m, s, g⟩ := acc
  simp only [roleStep, accMem]
  right; right
  rw [if_pos hstud]
  have h1 : G ∈ List.foldl (fun g gs => setAdd g gs.guardianUuid) g
      ue.users.guardian_students_guardian_students_studentUuidTousers :=
    foldl_setAdd_mem_link _ g G hg
  split
  · exact setAdd_mem_of_mem _ G _ h1
  · exact h1

theorem mem_allParticipants_of_guardianLink (E : EngagementWithMembers)
    (ue : UsersEngagementRow) (G : String) (hue : ue ∈ E.users_engagements)
    (hstud : ue.users.roles.contains "student" = true)
    (hg : ∃ gl ∈ ue.users.guardian_students_guardian_students_studentUuidTousers,
      gl.guardianUuid = G) :
    G ∈ allParticipants E := by
  obtain ⟨pre, post, hsplit⟩ := List.append_of_mem hue
  have hacc : accMem (E.users_engagements.foldl roleStep ([], [], [])) G := by
    rw [hsplit, List.foldl_append, List.foldl_cons]
    exact foldl_roleStep_accMem_mono post _ G
      (roleStep_guardian_mem (pre.foldl roleStep ([], [], [])) ue G hstud hg)
  unfold allParticipants
  rcases hacc with h | h | h
  · exact List.mem_append_left _ (List.mem_append_left _ h)
  · exact List.mem_append_left _ (List.mem_append_right _ h)
  · exact List.mem_append_right _ h

/-! ### Capture facts and annotation unfolding -/

theorem isHexDashChar_no_underscore (c : Char) (h : isHexDashChar c = true) : c ≠ '_' := by
  intro heq
  rw [heq] at h
  exact absurd h (by decide)

theorem tryPairAt_no_underscore (cs : List Char) (u1 u2 : String)
    (h : tryPairAt cs = some (u1, u2)) : NoUnderscore u1 ∧ NoUnderscore u2 := by
  simp only [tryPairAt] at h
  split at h
  case isTrue hcond =>
    simp only [Option.some.injEq, Prod.mk.injEq] at h
    obtain ⟨h1, h2⟩ := h
    simp only [Bool.and_eq_true, decide_eq_true_eq] at hcond
    obtain ⟨⟨⟨⟨hlen1, hall1⟩, hsep⟩, hlen2⟩, hall2⟩ := hcond
    constructor
    · rw [← h1]
      intro hmem
      exact isHexDashChar_no_underscore '_' (List.all_eq_true.mp hall1 '_' hmem) rfl
    · rw [← h2]
      intro hmem
      exact isHexDashChar_no_underscore '_' (List.all_eq_true.mp hall2 '_' hmem) rfl
  case isFalse => exact absurd h (by simp)

theorem pairSearch_no_underscore (cs : List Char) (u1 u2 : String)
    (h : pairSearch cs = some (u1, u2)) : NoUnderscore u1 ∧ NoUnderscore u2 := by
  induction cs with
  | nil => simp [pairSearch] at h
  | cons c rest ih =>
    unfold pairSearch at h
    cases htry : tryPairAt (c :: rest) with
    | some r =>
      rw [htry] at h
      cases r with
      | mk r1 r2 =>
        simp only [Option.some.injEq] at h
        exact tryPairAt_no_underscore (c :: rest) u1 u2 (h ▸ htry)
    | none =>
      rw [htry] at h
      exact ih h

theorem pairMatch_no_underscore (s : String) (u1 u2 : String)
    (h : pairMatch s = some (u1, u2)) : NoUnderscore u1 ∧ NoUnderscore u2 :=
  pairSearch_no_underscore s.data u1 u2 h

theorem annotateConversation_frame (gm : List EngRef) (lk : Lookup) (us : List UserDetails)
    (c : Conversation) :
    (annotateConversation gm lk us c).uuid = c.uuid
    ∧ (annotateConversation gm lk us c).userUuids = c.userUuids
    ∧ (annotateConversation gm lk us c).createdAt = c.createdAt
    ∧ (annotateConversation gm lk us c).updatedAt = c.updatedAt
    ∧ (annotateConversation gm lk us c).cometConversationId = c.cometConversationId
    ∧ (annotateConversation gm lk us c).cometConversationType = c.cometConversationType := by
  unfold annotateConversation
  exact ⟨rfl, rfl, rfl, rfl, rfl, rfl⟩

theorem annotateConversation_user_single (gm : List EngRef) (lk : Lookup)
    (us : List UserDetails) (c : Conversation) (u1 u2 : String) (e : EngRef)
    (hT : c.cometConversationType = "user")
    (hM : pairMatch c.cometConversationId = some (u1, u2))
    (hl : (lookGet lk (u1 ++ "_" ++ u2)).getD [] = [e]) :
    (annotateConversation gm lk us c).engagementUuid = some e.uuid
    ∧ (annotateConversation gm lk us c).engagement = some e
    ∧ (annotateConversation gm lk us c).engagements = [e] := by
  have hres : resolveFields gm lk c = (some e.uuid, some e, some [e]) := by
    unfold resolveFields
    rw [hT]
    rw [if_neg (by decide), if_pos rfl, hM]
    dsimp only
    rw [hl]
  unfold annotateConversation
  rw [hres]
  exact ⟨rfl, rfl, rfl⟩

theorem annotateConversation_user_other (gm : List EngRef) (lk : Lookup)
    (us : List UserDetails) (c : Conversation) (u1 u2 : String) (l : List EngRef)
    (hT : c.cometConversationType = "user")
    (hM : pairMatch c.cometConversationId = some (u1, u2))
    (hl : (lookGet lk (u1 ++ "_" ++ u2)).getD [] = l) (hlen : l.length ≠ 1) :
    (annotateConversation gm lk us c).engagementUuid = none
    ∧ (annotateConversation gm lk us c).engagement = none
    ∧ (annotateConversation gm lk us c).engagements = l := by
  have hres : resolveFields gm lk c = (none, none, some l) := by
    unfold resolveFields
    rw [hT]
    rw [if_neg (by decide), if_pos rfl, hM]
    dsimp only
    rw [hl]
    match l, hlen with
    | [], _ => rfl
    | [e], h => exact absurd rfl h
    | e :: f :: rest, _ => rfl
  unfold annotateConversation
  rw [hres]
  exact ⟨rfl, rfl, rfl⟩

theorem annotateConversation_group (gm : List EngRef) (lk : Lookup)
    (us : List UserDetails) (c : Conversation) (frag : String)
    (hT : c.cometConversationType = "group")
    (hM : groupMatch c.cometConversationId = some frag) :
    (annotateConversation gm lk us c).engagementUuid = some frag
    ∧ (annotateConversation gm lk us c).engagement = jsMapGet EngRef.uuid gm frag
    ∧ (annotateConversation gm lk us c).engagements = [] := by
  have hres : resolveFields gm lk c = (some frag, jsMapGet EngRef.uuid gm frag, none) := by
    unfold resolveFields
    rw [hT]
    rw [if_pos rfl, hM]
  unfold annotateConversation
  rw [hres]
  exact ⟨rfl, rfl, rfl⟩

theorem annotateConversation_nomatch (gm : List EngRef) (lk : Lookup)
    (us : List UserDetails) (c : Conversation)
    (hG : groupMatch c.cometConversationId = none)
    (hP : pairMatch c.cometConversationId = none) :
    (annotateConversation gm lk us c).engagementUuid = none
    ∧ (annotateConversation gm lk us c).engagement = none
    ∧ (annotateConversation gm lk us c).engagements = [] := by
  have hres : resolveFields gm lk c = (none, none, none) := by
    unfold resolveFields
    by_cases h1 : c.cometConversationType = "group"
    · rw [h1, if_pos rfl, hG]
    · rw [if_neg h1]
      by_cases h2 : c.cometConversationType = "user"
      · rw [if_pos h2, hP]
      · rw [if_neg h2]
  unfold annotateConversation
  rw [hres]
  exact ⟨rfl, rfl, rfl⟩

/-! ### jsMapGet lemmas -/

theorem jsMapGet_eq_some_mem {α : Type} (key : α → String) (l : List α) (k : String)
    (u : α) (h : jsMapGet key l k = some u) : u ∈ l ∧ key u = k := by
  induction l with
  | nil => simp [jsMapGet] at h
  | cons x rest ih =>
    unfold jsMapGet at h
    cases hr : jsMapGet key rest k with
    | some r =>
      rw [hr] at h
      obtain rfl : r = u := by injection h
      obtain ⟨hm, hk⟩ := ih hr
      exact ⟨List.mem_cons_of_mem x hm, hk⟩
    | none =>
      rw [hr] at h
      by_cases hk : key x = k
      · rw [if_pos hk] at h
        obtain rfl : x = u := by injection h
        exact ⟨List.mem_cons_self x rest, hk⟩
      · rw [if_neg hk] at h
        exact nomatch h

theorem jsMapGet_eq_none_iff {α : Type} (key : α → String) (l : List α) (k : String) :
    jsMapGet key l k = none ↔ ∀ u ∈ l, key u ≠ k := by
  induction l with
  | nil => simp [jsMapGet]
  | cons x rest ih =>
    unfold jsMapGet
    cases hr : jsMapGet key rest k with
    | some r =>
      simp only [reduceCtorEq, false_iff]
      intro hall
      obtain ⟨hm, hk⟩ := jsMapGet_eq_some_mem key rest k r hr
      exact hall r (List.mem_cons_of_mem x hm) hk
    | none =>
      by_cases hk : key x = k
      · rw [if_pos hk]
        simp only [reduceCtorEq, false_iff]
        intro hall
        exact hall x (List.mem_cons_self x rest) hk
      · rw [if_neg hk]
        simp only [true_iff]
        intro u hu
        rcases List.mem_cons.mp hu with rfl | hmem
        · exact hk
        · exact (ih.mp hr) u hmem

/-! ### Analyzer lemmas -/

theorem samplesAux_eq_forwardSamples (msgs : List AnalyzerMessage) :
    ∀ seen : List AnalyzerMessage,
      samplesAux seen msgs = forwardSamples (seen.find? (fun p => !isMentorMessage p)) msgs := by
  induction msgs with
  | nil => intro seen; rfl
  | cons m rest ih =>
    intro seen
    by_cases hm : isMentorMessage m = true
    · have hfind : (m :: seen).find? (fun p => !isMentorMessage p)
          = seen.find? (fun p => !isMentorMessage p) := by
        rw [List.find?_cons_of_neg]
        simp [hm]
      unfold samplesAux forwardSamples
      rw [if_pos hm, if_pos hm, ih (m :: seen), hfind]
    · have hmf : isMentorMessage m = false := by simpa using hm
      have hfind : (m :: seen).find? (fun p => !isMentorMessage p) = some m := by
        rw [List.find?_cons_of_pos]
        simp [hmf]
      unfold samplesAux forwardSamples
      rw [if_neg hm, if_neg hm, ih (m :: seen), hfind]
      simp

theorem samplesAux_mem_facts (msgs : List AnalyzerMessage) :
    ∀ (seen : List AnalyzerMessage) (s : ResponseSample), s ∈ samplesAux seen msgs →
      0 < s.responseTimeMs ∧ isMentorMessage s.mentorMessage = true
        ∧ isMentorMessage s.precedingNonMentorMessage = false := by
  induction msgs with
  | nil => intro seen s h; simp [samplesAux] at h
  | cons m rest ih =>
    intro seen s h
    unfold samplesAux at h
    rcases List.mem_append.mp h with hhere | htail
    · by_cases hm : isMentorMessage m = true
      · rw [if_pos hm] at hhere
        cases hfind : seen.find? (fun p => !isMentorMessage p) with
        | none => rw [hfind] at hhere; simp at hhere
        | some p =>
          rw [hfind] at hhere
          dsimp only at hhere
          by_cases hdt : 0 < m.createdAt - p.createdAt
          · rw [if_pos hdt] at hhere
            obtain rfl := List.mem_singleton.mp hhere
            have hp := List.find?_some hfind
            simp only [Bool.not_eq_true'] at hp
            exact ⟨hdt, hm, hp⟩
          · rw [if_neg hdt] at hhere
            simp at hhere
      · rw [if_neg hm] at hhere
        simp at hhere
    · exact ih (m :: seen) s htail

/-- The qualifying-sample predicate relative to a remembered
most-recent non-mentor message. -/
def QSEfrom (lastNonMentor : Option AnalyzerMessage) (rest : List AnalyzerMessage) : Prop :=
  (∃ p mid m post, lastNonMentor = some p ∧ rest = mid ++ m :: post
     ∧ (∀ x ∈ mid, isMentorMessage x = true) ∧ isMentorMessage m = true
     ∧ 0 < m.createdAt - p.createdAt)
  ∨ QualifyingSampleExists rest

theorem QSEfrom_cons_mentor (lastNM : Option AnalyzerMessage) (x : AnalyzerMessage)
    (xs : List AnalyzerMessage) (hx : isMentorMessage x = true) :
    QSEfrom lastNM (x :: xs)
      ↔ (∃ p, lastNM = some p ∧ 0 < x.createdAt - p.createdAt) ∨ QSEfrom lastNM xs := by
  unfold QSEfrom QualifyingSampleExists
  constructor
  · rintro (⟨p, mid, m, post, hl, heq, hmid, hm, hdt⟩ | ⟨pre, p, mid, m, post, heq, hp, hmid, hm, hdt⟩)
    · cases mid with
      | nil =>
        simp only [List.nil_append, List.cons.injEq] at heq
        obtain ⟨rfl, rfl⟩ := heq
        exact Or.inl ⟨p, hl, hdt⟩
      | cons y mid2 =>
        simp only [List.cons_append, List.cons.injEq] at heq
        obtain ⟨rfl, rfl⟩ := heq
        exact Or.inr (Or.inl ⟨p, mid2, m, post, hl, rfl,
          fun z hz => hmid z (List.mem_cons_of_mem _ hz), hm, hdt⟩)
    · cases pre with
      | nil =>
        simp only [List.nil_append, List.cons.injEq] at heq
        obtain ⟨rfl, rfl⟩ := heq
        rw [hx] at hp
        exact nomatch hp
      | cons y pre2 =>
        simp only [List.cons_append, List.cons.injEq] at heq
        obtain ⟨rfl, rfl⟩ := heq
        exact Or.inr (Or.inr ⟨pre2, p, mid, m, post, rfl, hp, hmid, hm, hdt⟩)
  · rintro (⟨p, hl, hdt⟩ | ⟨p, mid, m, post, hl, heq, hmid, hm, hdt⟩ |
      ⟨pre, p, mid, m, post, heq, hp, hmid, hm, hdt⟩)
    · exact Or.inl ⟨p, [], x, xs, hl, rfl, by simp, hx, hdt⟩
    · refine Or.inl ⟨p, x :: mid, m, post, hl, by rw [heq]; rfl, ?_, hm, hdt⟩
      intro z hz
      rcases List.mem_cons.mp hz with rfl | hz2
      · exact hx
      · exact hmid z hz2
    · exact Or.inr ⟨x :: pre, p, mid, m, post, by rw [heq]; rfl, hp, hmid, hm, hdt⟩

theorem QSEfrom_cons_nonmentor (lastNM : Option AnalyzerMessage) (x : AnalyzerMessage)
    (xs : List AnalyzerMessage) (hx : isMentorMessage x = false) :
    QSEfrom lastNM (x :: xs) ↔ QSEfrom (some x) xs := by
  unfold QSEfrom QualifyingSampleExists
  constructor
  · rintro (⟨p, mid, m, post, hl, heq, hmid, hm, hdt⟩ | ⟨pre, p, mid, m, post, heq, hp, hmid, hm, hdt⟩)
    · cases mid with
      | nil =>
        simp only [List.nil_append, List.cons.injEq] at heq
        obtain ⟨rfl, rfl⟩ := heq
        rw [hm] at hx
        exact nomatch hx
      | cons y mid2 =>
        simp only [List.cons_append, List.cons.injEq] at heq
        obtain ⟨rfl, rfl⟩ := heq
        rw [hmid x (List.mem_cons_self x mid2)] at hx
        exact nomatch hx
    · cases pre with
      | nil =>
        simp only [List.nil_append, List.cons.injEq] at heq
        obtain ⟨rfl, rfl⟩ := heq
        exact Or.inl ⟨x, mid, m, post, rfl, rfl, hmid, hm, hdt⟩
      | cons y pre2 =>
        simp only [List.cons_append, List.cons.injEq] at heq
        obtain ⟨rfl, rfl⟩ := heq
        exact Or.inr ⟨pre2, p, mid, m, post, rfl, hp, hmid, hm, hdt⟩
  · rintro (⟨p, mid, m, post, hl, heq, hmid, hm, hdt⟩ |
      ⟨pre, p, mid, m, post, heq, hp, hmid, hm, hdt⟩)
    · obtain rfl : x = p := by injection hl
      exact Or.inr ⟨[], x, mid, m, post, by rw [heq]; rfl, hx, hmid, hm, hdt⟩
    · exact Or.inr ⟨x :: pre, p, mid, m, post, by rw [heq]; rfl, hp, hmid, hm, hdt⟩

theorem forwardSamples_eq_nil_iff (rest : List AnalyzerMessage) :
    ∀ lastNM : Option AnalyzerMessage,
      forwardSamples lastNM rest = [] ↔ ¬ QSEfrom lastNM rest := by
  induction rest with
  | nil =>
    intro lastNM
    simp only [forwardSamples, true_iff]
    rintro (⟨p, mid, m, post, _, heq, _⟩ | ⟨pre, p, mid, m, post, heq, _⟩)
    · exact absurd heq (by simp)
    · exact absurd heq (by simp)
  | cons x xs ih =>
    intro lastNM
    by_cases hx : isMentorMessage x = true
    · rw [QSEfrom_cons_mentor lastNM x xs hx]
      unfold forwardSamples
      rw [if_pos hx]
      rw [List.append_eq_nil]
      have hemit : ((match lastNM with
          | some p =>
            if 0 < x.createdAt - p.createdAt then
              [{ responseTimeMs := x.createdAt - p.createdAt, mentorMessage := x,
                 precedingNonMentorMessage := p }]
            else []
          | none => []) = ([] : List ResponseSample))
          ↔ ¬ ∃ p, lastNM = some p ∧ 0 < x.createdAt - p.createdAt := by
        cases lastNM with
        | none => simp
        | some p =>
          dsimp only
          by_cases hdt : 0 < x.createdAt - p.createdAt
          · rw [if_pos hdt]
            exact iff_of_false (by simp) (fun hno => hno ⟨p, rfl, hdt⟩)
          · rw [if_neg hdt]
            apply iff_of_true rfl
            rintro ⟨p0, hp0, hdt0⟩
            obtain rfl : p = p0 := by injection hp0
            exact hdt hdt0
      rw [hemit, ih lastNM]
      constructor
      · rintro ⟨h1, h2⟩ (h | h)
        · exact h1 h
        · exact h2 h
      · intro h
        exact ⟨fun hp => h (Or.inl hp), fun hq => h (Or.inr hq)⟩
    · have hxf : isMentorMessage x = false := by simpa using hx
      rw [QSEfrom_cons_nonmentor lastNM x xs hxf]
      unfold forwardSamples
      rw [if_neg hx]
      exact ih (some x)

theorem QSEfrom_none_iff (msgs : List AnalyzerMessage) :
    QSEfrom none msgs ↔ QualifyingSampleExists msgs := by
  unfold QSEfrom
  constructor
  · rintro (⟨p, mid, m, post, hl, _⟩ | h)
    · exact nomatch hl
    · exact h
  · exact Or.inr

theorem annotateConversation_user_engagements (gm : List EngRef) (lk : Lookup)
    (us : List UserDetails) (c : Conversation) (u1 u2 : String)
    (hT : c.cometConversationType = "user")
    (hM : pairMatch c.cometConversationId = some (u1, u2)) :
    (annotateConversation gm lk us c).engagements = (lookGet lk (u1 ++ "_" ++ u2)).getD [] := by
  cases hl : (lookGet lk (u1 ++ "_" ++ u2)).getD [] with
  | nil => exact (annotateConversation_user_other gm lk us c u1 u2 [] hT hM hl (by simp)).2.2
  | cons e rest =>
    cases rest with
    | nil => exact (annotateConversation_user_single gm lk us c u1 u2 e hT hM hl).2.2
    | cons f rest2 =>
      exact (annotateConversation_user_other gm lk us c u1 u2 (e :: f :: rest2) hT hM hl
        (by simp)).2.2

theorem pairPush_symm (e : EngRef) (a b u1 u2 : String) (h1 : NoUnderscore u1)
    (h2 : NoUnderscore u2) :
    pairPush e a b (u1 ++ "_" ++ u2) = pairPush e a b (u2 ++ "_" ++ u1) := by
  by_cases hu : u1 = u2
  · rw [hu]
  · unfold pairPush
    have e1 : (a ++ "_" ++ b = u1 ++ "_" ++ u2) = (a = u1 ∧ b = u2) :=
      propext (key_eq_iff a b u1 u2 h1 h2)
    have e2 : (b ++ "_" ++ a = u1 ++ "_" ++ u2) = (b = u1 ∧ a = u2) :=
      propext (key_eq_iff b a u1 u2 h1 h2)
    have e3 : (a ++ "_" ++ b = u2 ++ "_" ++ u1) = (a = u2 ∧ b = u1) :=
      propext (key_eq_iff a b u2 u1 h2 h1)
    have e4 : (b ++ "_" ++ a = u2 ++ "_" ++ u1) = (b = u2 ∧ a = u1) :=
      propext (key_eq_iff b a u2 u1 h2 h1)
    simp only [e1, e2, e3, e4]
    by_cases c1 : a = u1 ∧ b = u2
    · by_cases c2 : b = u1 ∧ a = u2
      · exact absurd (c1.1 ▸ c2.2) hu
      · have c2x : ¬(a = u2 ∧ b = u1) := fun hh => c2 ⟨hh.2, hh.1⟩
        have c1x : b = u2 ∧ a = u1 := ⟨c1.2, c1.1⟩
        simp [c1, c2, c2x, c1x, hu, Ne.symm hu]
    · by_cases c2 : b = u1 ∧ a = u2
      · have c2x : a = u2 ∧ b = u1 := ⟨c2.2, c2.1⟩
        have c1x : ¬(b = u2 ∧ a = u1) := fun hh => c1 ⟨hh.2, hh.1⟩
        simp [c1, c2, c2x, c1x, hu, Ne.symm hu]
      · have c2x : ¬(a = u2 ∧ b = u1) := fun hh => c2 ⟨hh.2, hh.1⟩
        have c1x : ¬(b = u2 ∧ a = u1) := fun hh => c1 ⟨hh.2, hh.1⟩
        simp [c1, c2, c2x, c1x]

theorem totalPush_symm (engs : List EngagementWithMembers) (u1 u2 : String)
    (h1 : NoUnderscore u1) (h2 : NoUnderscore u2) :
    totalPush engs (u1 ++ "_" ++ u2) = totalPush engs (u2 ++ "_" ++ u1) := by
  unfold totalPush
  congr 1
  apply List.map_congr_left
  intro e _
  unfold engPush
  congr 1
  apply List.map_congr_left
  intro ab _
  exact pairPush_symm _ ab.1 ab.2 u1 u2 h1 h2

/-! ### Claims -/

/-- C7: for every conversation whose externalConversationId matches neither
the group pattern nor the pair pattern, resolution is skipped without an
error and the output carries the defined no-engagement outcome:
`engagementUuid` is null, `engagement` is null, `engagements` is empty. -/
theorem claim7_malformed_fallback (gm : List EngRef) (lk : Lookup) (us : List UserDetails)
    (c : Conversation) (hG : groupMatch c.cometConversationId = none)
    (hP : pairMatch c.cometConversationId = none) :
    (annotateConversation gm lk us c).engagementUuid = none
    ∧ (annotateConversation gm lk us c).engagement = none
    ∧ (annotateConversation gm lk us c).engagements = [] :=
  annotateConversation_nomatch gm lk us c hG hP

def w7c : Conversation :=
  { uuid := "c7"
    userUuids := []
    createdAt := 0
    updatedAt := 0
    cometConversationId := "not-a-valid-identifier"
    cometConversationType := "user" }

/-- Witness for C7 at a malformed identifier. -/
theorem claim7_malformed_fallback_witness :
    (annotateConversation [] [] [] w7c).engagementUuid = none
    ∧ (annotateConversation [] [] [] w7c).engagement = none
    ∧ (annotateConversation [] [] [] w7c).engagements = [] :=
  claim7_malformed_fallback [] [] [] w7c (by decide) (by decide)

/-- C8: the pair-to-engagements lookup table is symmetric: for any two
user UUIDs (underscore-free strings, as every UUID capture is), the list
recorded under the key built from `(u1, u2)` equals the list recorded
under the key built from `(u2, u1)`, so pair resolution does not depend
on the order of the two UUIDs in the identifier. -/
theorem claim8_pair_lookup_symmetry (engs : List EngagementWithMembers) (u1 u2 : String)
    (h1 : NoUnderscore u1) (h2 : NoUnderscore u2) :
    lookGet (buildLookup engs) (u1 ++ "_" ++ u2)
      = lookGet (buildLookup engs) (u2 ++ "_" ++ u1) := by
  rw [buildLookup_lookGet, buildLookup_lookGet, totalPush_symm engs u1 u2 h1 h2]

def w8uA : String := "aaaaaaaa-aaaa-aaaa-aaaa-aaaaaaaaaaaa"

def w8uB : String := "bbbbbbbb-bbbb-bbbb-bbbb-bbbbbbbbbbbb"

def w8E : EngagementWithMembers :=
  { uuid := "e8"
    title := "Chess"
    users_engagements :=
      [{ userUuid := w8uA
         users :=
           { uuid := w8uA
             roles := ["mentor"]
             guardian_students_guardian_students_guardianUuidTousers := []
             guardian_students_guardian_students_studentUuidTousers := [] } },
       { userUuid := w8uB
         users :=
           { uuid := w8uB
             roles := ["student"]
             guardian_students_guardian_students_guardianUuidTousers := []
             guardian_students_guardian_students_studentUuidTousers := [] } }] }

/-- Witness for C8 on a concrete one-engagement table. -/
theorem claim8_pair_lookup_symmetry_witness :
    lookGet (buildLookup [w8E]) (w8uA ++ "_" ++ w8uB)
      = lookGet (buildLookup [w8E]) (w8uB ++ "_" ++ w8uA) :=
  claim8_pair_lookup_symmetry [w8E] w8uA w8uB (by unfold NoUnderscore; decide)
    (by unfold NoUnderscore; decide)

/-- C10: annotation preserves every originally fetched conversation field
unchanged, adds only the annotation fields, and neither drops, adds nor
reorders conversations: the output has the same length and, at each index,
the same frame fields as the input. -/
theorem claim10_resolver_frame (convs : List Conversation) (users : List UserDetails)
    (gm : List EngRef) (ued : List EngagementWithMembers) :
    (conversationsGET convs users gm ued).length = convs.length
    ∧ ∀ (i : Nat) (c : Conversation), convs[i]? = some c →
        ∃ a, (conversationsGET convs users gm ued)[i]? = some a
          ∧ a.uuid = c.uuid ∧ a.userUuids = c.userUuids ∧ a.createdAt = c.createdAt
          ∧ a.updatedAt = c.updatedAt ∧ a.cometConversationId = c.cometConversationId
          ∧ a.cometConversationType = c.cometConversationType := by
  constructor
  · simp [conversationsGET]
  · intro i c hc
    obtain ⟨f1, f2, f3, f4, f5, f6⟩ := annotateConversation_frame gm (buildLookup ued) users c
    refine ⟨annotateConversation gm (buildLookup ued) users c, ?_, f1, f2, f3, f4, f5, f6⟩
    unfold conversationsGET
    rw [List.getElem?_map, hc]
    rfl

def w10c : Conversation :=
  { uuid := "c10"
    userUuids := ["u1", "u2"]
    createdAt := 5
    updatedAt := 9
    cometConversationId := "group_group-e1"
    cometConversationType := "group" }

/-- Witness for C10 on a single concrete conversation. -/
theorem claim10_resolver_frame_witness :
    (conversationsGET [w10c] [] [] []).length = [w10c].length
    ∧ ∃ a, (conversationsGET [w10c] [] [] [])[0]? = some a
        ∧ a.uuid = w10c.uuid ∧ a.userUuids = w10c.userUuids ∧ a.createdAt = w10c.createdAt
        ∧ a.updatedAt = w10c.updatedAt ∧ a.cometConversationId = w10c.cometConversationId
        ∧ a.cometConversationType = w10c.cometConversationType := by
  have h := claim10_resolver_frame [w10c] [] [] []
  exact ⟨h.1, h.2 0 w10c rfl⟩

/-- C2 (amended): for every group-type conversation whose identifier
matches the group pattern with a fragment that the engagement map
resolves, `engagementUuid` equals the fragment and `engagement` equals
that stored engagement (so its title is the stored title), but
`engagements` remains the empty list: the group branch never populates
the `engagements` field, so the resolved engagement is not its sole
entry. -/
theorem claim2_group_found (gm : List EngRef) (lk : Lookup) (us : List UserDetails)
    (c : Conversation) (frag : String) (E : EngRef)
    (hT : c.cometConversationType = "group")
    (hM : groupMatch c.cometConversationId = some frag)
    (hE : jsMapGet EngRef.uuid gm frag = some E) :
    (annotateConversation gm lk us c).engagementUuid = some frag
    ∧ (annotateConversation gm lk us c).engagement = some E
    ∧ E ∈ gm ∧ E.uuid = frag
    ∧ (annotateConversation gm lk us c).engagements = [] := by
  obtain ⟨h1, h2, h3⟩ := annotateConversation_group gm lk us c frag hT hM
  obtain ⟨hm, hk⟩ := jsMapGet_eq_some_mem EngRef.uuid gm frag E hE
  exact ⟨h1, by rw [h2, hE], hm, hk, h3⟩

def cx2c : Conversation :=
  { uuid := "c2"
    userUuids := []
    createdAt := 0
    updatedAt := 0
    cometConversationId := "group_group-e1"
    cometConversationType := "group" }

/-- Counterexample to C2 as stated: the fragment resolves and `engagement`
is set, yet `engagements` is empty rather than the one-element list the
claim requires. -/
theorem claim2_counterexample :
    (annotateConversation [{ uuid := "e1", title := "T" }] [] [] cx2c).engagement
        = some { uuid := "e1", title := "T" }
    ∧ (annotateConversation [{ uuid := "e1", title := "T" }] [] [] cx2c).engagements = []
    ∧ (annotateConversation [{ uuid := "e1", title := "T" }] [] [] cx2c).engagements
        ≠ [{ uuid := "e1", title := "T" }] := by
  refine ⟨by decide, by decide, by decide⟩

def w2c : Conversation :=
  { uuid := "c2w"
    userUuids := []
    createdAt := 0
    updatedAt := 0
    cometConversationId := "group_group-11111111-1111-1111-1111-111111111111"
    cometConversationType := "group" }

/-- Witness for the amended C2. -/
theorem claim2_group_found_witness :
    (annotateConversation [{ uuid := "11111111-1111-1111-1111-111111111111", title := "Algebra" }]
        [] [] w2c).engagementUuid = some "11111111-1111-1111-1111-111111111111"
    ∧ (annotateConversation [{ uuid := "11111111-1111-1111-1111-111111111111", title := "Algebra" }]
        [] [] w2c).engagement
        = some { uuid := "11111111-1111-1111-1111-111111111111", title := "Algebra" }
    ∧ ({ uuid := "11111111-1111-1111-1111-111111111111", title := "Algebra" } : EngRef)
        ∈ [({ uuid := "11111111-1111-1111-1111-111111111111", title := "Algebra" } : EngRef)]
    ∧ ({ uuid := "11111111-1111-1111-1111-111111111111", title := "Algebra" } : EngRef).uuid
        = "11111111-1111-1111-1111-111111111111"
    ∧ (annotateConversation [{ uuid := "11111111-1111-1111-1111-111111111111", title := "Algebra" }]
        [] [] w2c).engagements = [] :=
  claim2_group_found [{ uuid := "11111111-1111-1111-1111-111111111111", title := "Algebra" }]
    [] [] w2c "11111111-1111-1111-1111-111111111111"
    { uuid := "11111111-1111-1111-1111-111111111111", title := "Algebra" }
    rfl (by decide) (by decide)

/-- C3 (amended): for every group-type conversation whose identifier
matches the group pattern but whose fragment is not the uuid of any
fetched engagement, `engagement` stays null and `engagements` stays
empty, but `engagementUuid` does not stay null: it is set to the parsed
fragment regardless of whether the lookup succeeds. -/
theorem claim3_group_not_found (gm : List EngRef) (lk : Lookup) (us : List UserDetails)
    (c : Conversation) (frag : String)
    (hT : c.cometConversationType = "group")
    (hM : groupMatch c.cometConversationId = some frag)
    (hNone : ∀ e ∈ gm, e.uuid ≠ frag) :
    (annotateConversation gm lk us c).engagementUuid = some frag
    ∧ (annotateConversation gm lk us c).engagement = none
    ∧ (annotateConversation gm lk us c).engagements = [] := by
  obtain ⟨h1, h2, h3⟩ := annotateConversation_group gm lk us c frag hT hM
  have hmap : jsMapGet EngRef.uuid gm frag = none :=
    (jsMapGet_eq_none_iff EngRef.uuid gm frag).mpr hNone
  exact ⟨h1, by rw [h2, hmap], h3⟩

def cx3c : Conversation :=
  { uuid := "c3"
    userUuids := []
    createdAt := 0
    updatedAt := 0
    cometConversationId := "group_group-e9"
    cometConversationType := "group" }

/-- Counterexample to C3 as stated: the fragment resolves to no fetched
engagement, yet `engagementUuid` is not null: it carries the fragment. -/
theorem claim3_counterexample :
    (∀ e ∈ ([] : List EngRef), e.uuid ≠ "e9")
    ∧ (annotateConversation [] [] [] cx3c).engagementUuid = some "e9"
    ∧ (annotateConversation [] [] [] cx3c).engagementUuid ≠ none := by
  refine ⟨by simp, by decide, by decide⟩

def w3c : Conversation :=
  { uuid := "c3w"
    userUuids := []
    createdAt := 0
    updatedAt := 0
    cometConversationId := "group_group-e9"
    cometConversationType := "group" }

/-- Witness for the amended C3. -/
theorem claim3_group_not_found_witness :
    (annotateConversation [{ uuid := "e1", title := "T" }] [] [] w3c).engagementUuid = some "e9"
    ∧ (annotateConversation [{ uuid := "e1", title := "T" }] [] [] w3c).engagement = none
    ∧ (annotateConversation [{ uuid := "e1", title := "T" }] [] [] w3c).engagements = [] :=
  claim3_group_not_found [{ uuid := "e1", title := "T" }] [] [] w3c "e9"
    rfl (by decide) (by decide)

/-- C1 (amended): for a pair-type conversation with distinct embedded
UUIDs, (i) if exactly one fetched engagement's eligible-participant set
contains both UUIDs and each UUID occurs exactly once in that
engagement's combined role enumeration, then `engagement` is that
engagement, `engagementUuid` its uuid, and `engagements` that one entry;
(ii) if no engagement connects the pair, all three outputs are
null/empty; (iii) if two or more engagements connect the pair,
`engagement` and `engagementUuid` are null while `engagements` carries
exactly the connecting engagements (possibly with repetitions).  Without
the once-per-enumeration proviso the exactly-one case fails: a
dual-role participant duplicates the pair entry and suppresses the
single-engagement fields (see the counterexample). -/
theorem claim1_pair_tie_break (engs : List EngagementWithMembers) (gm : List EngRef)
    (us : List UserDetails) (c : Conversation) (u1 u2 : String)
    (hT : c.cometConversationType = "user")
    (hM : pairMatch c.cometConversationId = some (u1, u2))
    (hne : u1 ≠ u2) :
    (∀ E : EngagementWithMembers,
        engs.filter (connectsPair u1 u2) = [E] →
        (allParticipants E).count u1 = 1 →
        (allParticipants E).count u2 = 1 →
        (annotateConversation gm (buildLookup engs) us c).engagement
            = some { uuid := E.uuid, title := E.title }
          ∧ (annotateConversation gm (buildLookup engs) us c).engagementUuid = some E.uuid
          ∧ (annotateConversation gm (buildLookup engs) us c).engagements
            = [{ uuid := E.uuid, title := E.title }])
    ∧ (engs.filter (connectsPair u1 u2) = [] →
        (annotateConversation gm (buildLookup engs) us c).engagement = none
          ∧ (annotateConversation gm (buildLookup engs) us c).engagementUuid = none
          ∧ (annotateConversation gm (buildLookup engs) us c).engagements = [])
    ∧ (2 ≤ (engs.filter (connectsPair u1 u2)).length →
        (annotateConversation gm (buildLookup engs) us c).engagement = none
          ∧ (annotateConversation gm (buildLookup engs) us c).engagementUuid = none
          ∧ (∀ E ∈ engs.filter (connectsPair u1 u2),
              ({ uuid := E.uuid, title := E.title } : EngRef)
                ∈ (annotateConversation gm (buildLookup engs) us c).engagements)
          ∧ (∀ r ∈ (annotateConversation gm (buildLookup engs) us c).engagements,
              ∃ E ∈ engs.filter (connectsPair u1 u2),
                r = { uuid := E.uuid, title := E.title })) := by
  obtain ⟨hn1, hn2⟩ := pairMatch_no_underscore c.cometConversationId u1 u2 hM
  have hget : (lookGet (buildLookup engs) (u1 ++ "_" ++ u2)).getD []
      = totalPush engs (u1 ++ "_" ++ u2) := by
    rw [buildLookup_lookGet, addOpt_none_getD]
  refine ⟨?_, ?_, ?_⟩
  · intro E hf hc1 hc2
    have htot := totalPush_eq_single engs E u1 u2 hn1 hn2 hne hf hc1 hc2
    have hl : (lookGet (buildLookup engs) (u1 ++ "_" ++ u2)).getD []
        = [{ uuid := E.uuid, title := E.title }] := by rw [hget, htot]
    obtain ⟨h1, h2, h3⟩ := annotateConversation_user_single gm (buildLookup engs) us c u1 u2
      { uuid := E.uuid, title := E.title } hT hM hl
    exact ⟨h2, h1, h3⟩
  · intro hf
    have htot := totalPush_eq_nil engs u1 u2 hn1 hn2 hne hf
    have hl : (lookGet (buildLookup engs) (u1 ++ "_" ++ u2)).getD [] = [] := by
      rw [hget, htot]
    obtain ⟨h1, h2, h3⟩ := annotateConversation_user_other gm (buildLookup engs) us c u1 u2
      [] hT hM hl (by simp)
    exact ⟨h2, h1, h3⟩
  · intro hlen2
    have hlen : 2 ≤ (totalPush engs (u1 ++ "_" ++ u2)).length :=
      le_trans hlen2 (filter_length_le_totalPush engs u1 u2 hn1 hn2 hne)
    obtain ⟨h1, h2, h3⟩ := annotateConversation_user_other gm (buildLookup engs) us c u1 u2
      (totalPush engs (u1 ++ "_" ++ u2)) hT hM hget (by omega)
    refine ⟨h2, h1, ?_, ?_⟩
    · intro E hEf
      rw [h3]
      obtain ⟨hEm, hEc⟩ := List.mem_filter.mp hEf
      exact (mem_totalPush_iff engs u1 u2 hn1 hn2 hne _).mpr ⟨E, hEm, hEc, rfl⟩
    · intro r hr
      rw [h3] at hr
      obtain ⟨e, he, hc, rfl⟩ := (mem_totalPush_iff engs u1 u2 hn1 hn2 hne r).mp hr
      exact ⟨e, List.mem_filter.mpr ⟨he, hc⟩, rfl⟩

def cx1uA : String := "aaaaaaaa-aaaa-aaaa-aaaa-aaaaaaaaaaaa"

def cx1uB : String := "bbbbbbbb-bbbb-bbbb-bbbb-bbbbbbbbbbbb"

def cx1E : EngagementWithMembers :=
  { uuid := "e1"
    title := "T"
    users_engagements :=
      [{ userUuid := cx1uA
         users :=
           { uuid := cx1uA
             roles := ["mentor", "student"]
             guardian_students_guardian_students_guardianUuidTousers := []
             guardian_students_guardian_students_studentUuidTousers := [] } },
       { userUuid := cx1uB
         users :=
           { uuid := cx1uB
             roles := ["mentor"]
             guardian_students_guardian_students_guardianUuidTousers := []
             guardian_students_guardian_students_studentUuidTousers := [] } }] }

def cx1c : Conversation :=
  { uuid := "c1"
    userUuids := [cx1uA, cx1uB]
    createdAt := 0
    updatedAt := 0
    cometConversationId := cx1uA ++ "_user_" ++ cx1uB
    cometConversationType := "user" }

/-- Counterexample to C1 as stated: exactly one engagement's
eligible-participant set contains both embedded UUIDs, yet because one
participant carries both the mentor and the student role the lookup list
holds that engagement twice, so `engagement` is null and `engagements`
has two entries rather than exactly one. -/
theorem claim1_counterexample :
    cx1c.cometConversationType = "user"
    ∧ pairMatch cx1c.cometConversationId = some (cx1uA, cx1uB)
    ∧ [cx1E].filter (connectsPair cx1uA cx1uB) = [cx1E]
    ∧ (annotateConversation [] (buildLookup [cx1E]) [] cx1c).engagement = none
    ∧ (annotateConversation [] (buildLookup [cx1E]) [] cx1c).engagementUuid = none
    ∧ (annotateConversation [] (buildLookup [cx1E]) [] cx1c).engagements.length = 2 := by
  refine ⟨rfl, by decide, by decide, by decide, by decide, by decide⟩

def w1uA : String := "aaaaaaaa-aaaa-aaaa-aaaa-aaaaaaaaaaaa"

def w1uB : String := "bbbbbbbb-bbbb-bbbb-bbbb-bbbbbbbbbbbb"

def w1E : EngagementWithMembers :=
  { uuid := "e1"
    title := "Alg"
    users_engagements :=
      [{ userUuid := w1uA
         users :=
           { uuid := w1uA
             roles := ["mentor"]
             guardian_students_guardian_students_guardianUuidTousers := []
             guardian_students_guardian_students_studentUuidTousers := [] } },
       { userUuid := w1uB
         users :=
           { uuid := w1uB
             roles := ["student"]
             guardian_students_guardian_students_guardianUuidTousers := []
             guardian_students_guardian_students_studentUuidTousers := [] } }] }

def w1c : Conversation :=
  { uuid := "c1w"
    userUuids := [w1uA, w1uB]
    createdAt := 0
    updatedAt := 0
    cometConversationId := w1uA ++ "_user_" ++ w1uB
    cometConversationType := "user" }

/-- Witness for the amended C1, exactly-one case: one clean engagement
connecting the pair yields the definitive single engagement. -/
theorem claim1_pair_tie_break_witness :
    (annotateConversation [] (buildLookup [w1E]) [] w1c).engagement
        = some { uuid := "e1", title := "Alg" }
    ∧ (annotateConversation [] (buildLookup [w1E]) [] w1c).engagementUuid = some "e1"
    ∧ (annotateConversation [] (buildLookup [w1E]) [] w1c).engagements
        = [{ uuid := "e1", title := "Alg" }] := by
  have h := claim1_pair_tie_break [w1E] [] [] w1c w1uA w1uB rfl (by decide) (by decide)
  exact h.1 w1E (by decide) (by decide) (by decide)

/-- C4: if engagement E has a member whose roles include the student role
and a guardian-link leads from guardian G to that student, then G belongs
to E's eligible-participant enumeration even though G is not a direct
member; consequently, for any other eligible participant u of E, a
pair-type conversation embedding the pair (G, u) resolves to an
`engagements` list that includes E. -/
theorem claim4_guardian_derivation (engs : List EngagementWithMembers)
    (E : EngagementWithMembers) (gm : List EngRef) (us : List UserDetails)
    (c : Conversation) (ue : UsersEngagementRow) (G u : String)
    (hE : E ∈ engs) (hue : ue ∈ E.users_engagements)
    (hstud : ue.users.roles.contains "student" = true)
    (hG : ∃ gl ∈ ue.users.guardian_students_guardian_students_studentUuidTousers,
      gl.guardianUuid = G)
    (_hnotmem : ∀ ue2 ∈ E.users_engagements, ue2.users.uuid ≠ G)
    (hu : u ∈ allParticipants E) (hneq : u ≠ G)
    (hT : c.cometConversationType = "user")
    (hM : pairMatch c.cometConversationId = some (G, u)) :
    G ∈ allParticipants E
    ∧ ({ uuid := E.uuid, title := E.title } : EngRef)
        ∈ (annotateConversation gm (buildLookup engs) us c).engagements := by
  have hGmem : G ∈ allParticipants E := mem_allParticipants_of_guardianLink E ue G hue hstud hG
  obtain ⟨hn1, hn2⟩ := pairMatch_no_underscore c.cometConversationId G u hM
  have hne : G ≠ u := Ne.symm hneq
  have heng := annotateConversation_user_engagements gm (buildLookup engs) us c G u hT hM
  rw [heng, buildLookup_lookGet, addOpt_none_getD]
  refine ⟨hGmem, ?_⟩
  apply (mem_totalPush_iff engs G u hn1 hn2 hne _).mpr
  refine ⟨E, hE, ?_, rfl⟩
  unfold connectsPair
  rw [Bool.and_eq_true, contains_true_iff, contains_true_iff]
  exact ⟨hGmem, hu⟩

def w4uS : String := "cccccccc-cccc-cccc-cccc-cccccccccccc"

def w4uM : String := "dddddddd-dddd-dddd-dddd-dddddddddddd"

def w4uG : String := "eeeeeeee-eeee-eeee-eeee-eeeeeeeeeeee"

def w4ueS : UsersEngagementRow :=
  { userUuid := w4uS
    users :=
      { uuid := w4uS
        roles := ["student"]
        guardian_students_guardian_students_guardianUuidTousers := []
        guardian_students_guardian_students_studentUuidTousers := [{ guardianUuid := w4uG }] } }

def w4E : EngagementWithMembers :=
  { uuid := "e4"
    title := "Piano"
    users_engagements :=
      [w4ueS,
       { userUuid := w4uM
         users :=
           { uuid := w4uM
             roles := ["mentor"]
             guardian_students_guardian_students_guardianUuidTousers := []
             guardian_students_guardian_students_studentUuidTousers := [] } }] }

def w4c : Conversation :=
  { uuid := "c4"
    userUuids := [w4uG, w4uM]
    createdAt := 0
    updatedAt := 0
    cometConversationId := w4uG ++ "_user_" ++ w4uM
    cometConversationType := "user" }

/-- Witness for C4: the guardian of a member student connects with the
engagement's mentor even though the guardian is not a member. -/
theorem claim4_guardian_derivation_witness :
    w4uG ∈ allParticipants w4E
    ∧ ({ uuid := "e4", title := "Piano" } : EngRef)
        ∈ (annotateConversation [] (buildLookup [w4E]) [] w4c).engagements :=
  claim4_guardian_derivation [w4E] w4E [] [] w4c w4ueS w4uG w4uM
    (by decide) (by decide) (by decide) (by decide) (by decide) (by decide) (by decide)
    rfl (by decide)

/-- C5 (spec-modelled analyzer): `analyze` returns null exactly when no
qualifying response sample exists, i.e. no mentor-authored message has a
nearest preceding non-mentor-authored message at strictly positive
latency (this subsumes the empty list, the no-mentor-message case and
the no-preceding-non-mentor case); moreover a non-positive latency is
never counted: every reported sample has strictly positive latency. -/
theorem claim5_analyzer_null_policy (msgs : List AnalyzerMessage) :
    (calculateMentorAverageResponseTime msgs = none ↔ ¬ QualifyingSampleExists msgs)
    ∧ ∀ r, calculateMentorAverageResponseTime msgs = some r →
        ∀ s ∈ r.responseTimes, 0 < s.responseTimeMs := by
  have hswap : samplesAux [] msgs = forwardSamples none msgs := by
    have h := samplesAux_eq_forwardSamples msgs []
    simpa using h
  have hiff : samplesAux [] msgs = [] ↔ ¬ QualifyingSampleExists msgs := by
    rw [hswap, forwardSamples_eq_nil_iff msgs none, QSEfrom_none_iff]
  constructor
  · constructor
    · intro h
      apply hiff.mp
      cases hs : samplesAux [] msgs with
      | nil => rfl
      | cons s ss =>
        unfold calculateMentorAverageResponseTime at h
        rw [hs] at h
        exact nomatch h
    · intro h
      unfold calculateMentorAverageResponseTime
      rw [hiff.mpr h]
  · intro r hr s hsmem
    have hrt : s ∈ samplesAux [] msgs := by
      unfold calculateMentorAverageResponseTime at hr
      cases hs : samplesAux [] msgs with
      | nil => rw [hs] at hr; exact nomatch hr
      | cons a as =>
        rw [hs] at hr
        dsimp only at hr
        injection hr with hr2
        rw [← hr2] at hsmem
        exact hsmem
    exact (samplesAux_mem_facts msgs [] s hrt).1

def w5nm : AnalyzerMessage := { uuid := "m1", createdAt := 1000, senderRoles := some ["student"] }

def w5mm : AnalyzerMessage := { uuid := "m2", createdAt := 0, senderRoles := some ["mentor"] }

/-- Witness for C5 at the negative-latency spec example
`[nonMentor@t0, mentor@t0-1000]`: the analyzer returns null and hence no
qualifying sample exists. -/
theorem claim5_analyzer_null_policy_witness :
    calculateMentorAverageResponseTime [w5nm, w5mm] = none
    ∧ ¬ QualifyingSampleExists [w5nm, w5mm] := by
  have h := claim5_analyzer_null_policy [w5nm, w5mm]
  have hnone : calculateMentorAverageResponseTime [w5nm, w5mm] = none := by decide
  exact ⟨hnone, h.1.mp hnone⟩

/-- C6 (spec-modelled analyzer): on any message list with at least one
qualifying sample, the samples equal those of the single forward pass
that pairs every mentor-authored message with the most recent preceding
non-mentor message (a null sender counting as non-mentor), so several
mentor messages after one non-mentor message each sample against that
same message; `responseCount` is the number of samples, `averageTimeMs`
their arithmetic mean in milliseconds, and `averageTimeFormatted` the
zero-padded `HH:MM` rendering (hours not wrapped at 24) of that mean. -/
theorem claim6_analyzer_aggregation (msgs : List AnalyzerMessage) (r : MentorResponseStats)
    (h : calculateMentorAverageResponseTime msgs = some r) :
    r.responseTimes = forwardSamples none msgs
    ∧ r.responseCount = r.responseTimes.length
    ∧ 0 < r.responseCount
    ∧ r.averageTimeMs
        = ((r.responseTimes.map ResponseSample.responseTimeMs).sum : ℚ) / (r.responseCount : ℚ)
    ∧ r.averageTimeFormatted = formatHM r.averageTimeMs
    ∧ ∀ s ∈ r.responseTimes, isMentorMessage s.mentorMessage = true
        ∧ isMentorMessage s.precedingNonMentorMessage = false
        ∧ 0 < s.responseTimeMs := by
  have hswap : samplesAux [] msgs = forwardSamples none msgs := by
    have hx := samplesAux_eq_forwardSamples msgs []
    simpa using hx
  unfold calculateMentorAverageResponseTime at h
  cases hs : samplesAux [] msgs with
  | nil => rw [hs] at h; exact nomatch h
  | cons a as =>
    rw [hs] at h
    dsimp only at h
    injection h with h2
    subst h2
    refine ⟨by rw [← hs, hswap], rfl, by simp, rfl, rfl, ?_⟩
    intro s hsmem
    have hfacts := samplesAux_mem_facts msgs [] s (hs ▸ hsmem)
    exact ⟨hfacts.2.1, hfacts.2.2, hfacts.1⟩

def w6nm : AnalyzerMessage := { uuid := "m1", createdAt := 0, senderRoles := some ["student"] }

def w6mmA : AnalyzerMessage := { uuid := "m2", createdAt := 60000, senderRoles := some ["mentor"] }

def w6mmB : AnalyzerMessage := { uuid := "m3", createdAt := 120000, senderRoles := some ["mentor"] }

def w6s1 : ResponseSample :=
  { responseTimeMs := 60000, mentorMessage := w6mmA, precedingNonMentorMessage := w6nm }

def w6s2 : ResponseSample :=
  { responseTimeMs := 120000, mentorMessage := w6mmB, precedingNonMentorMessage := w6nm }

def w6stats : MentorResponseStats :=
  { averageTimeMs := 90000
    averageTimeFormatted := "00:01"
    responseCount := 2
    responseTimes := [w6s1, w6s2] }

/-- Witness for C6 at the spec example
`[nonMentor@t0, mentor@t0+60000, mentor@t0+120000]`: two samples, both
against the same preceding non-mentor message, average 90000 ms rendered
as `00:01`. -/
theorem claim6_analyzer_aggregation_witness :
    calculateMentorAverageResponseTime [w6nm, w6mmA, w6mmB] = some w6stats
    ∧ w6stats.responseTimes.length = 2
    ∧ w6s1.precedingNonMentorMessage = w6s2.precedingNonMentorMessage
    ∧ (w6stats.responseTimes = forwardSamples none [w6nm, w6mmA, w6mmB]
      ∧ w6stats.responseCount = w6stats.responseTimes.length
      ∧ 0 < w6stats.responseCount
      ∧ w6stats.averageTimeMs
          = ((w6stats.responseTimes.map ResponseSample.responseTimeMs).sum : ℚ)
            / (w6stats.responseCount : ℚ)
      ∧ w6stats.averageTimeFormatted = formatHM w6stats.averageTimeMs
      ∧ ∀ s ∈ w6stats.responseTimes, isMentorMessage s.mentorMessage = true
          ∧ isMentorMessage s.precedingNonMentorMessage = false
          ∧ 0 < s.responseTimeMs) := by
  have hs : samplesAux [] [w6nm, w6mmA, w6mmB] = [w6s1, w6s2] := by decide
  have hcalc : calculateMentorAverageResponseTime [w6nm, w6mmA, w6mmB] = some w6stats := by
    unfold calculateMentorAverageResponseTime
    rw [hs]
    dsimp only
    have havg : ((List.map ResponseSample.responseTimeMs [w6s1, w6s2]).sum : ℚ)
        / (([w6s1, w6s2] : List ResponseSample).length : ℚ) = 90000 := by
      simp [w6s1, w6s2]
      norm_num
    rw [havg]
    have hfmt : formatHM 90000 = "00:01" := by
      unfold formatHM
      have h1 : ((90000 : ℚ) / 60000) = 3 / 2 := by norm_num
      rw [h1]
      have h2 : (⌊(3 / 2 : ℚ)⌋ : Int) = 1 := by norm_num [Int.floor_eq_iff]
      rw [h2]
      rfl
    rw [hfmt]
    rfl
  exact ⟨hcalc, by decide, by decide,
    claim6_analyzer_aggregation [w6nm, w6mmA, w6mmB] w6stats hcalc⟩

/-- C9: the messages route returns exactly the conversation's non-deleted
messages (as a permutation of the filtered table rows, each annotated),
ordered ascending by `createdAt`, and each output message's `sender` is
the resolved user when the `senderUuid` is found among the fetched
senders and null when it no longer resolves. -/
theorem claim9_messages_contract (ms : List MessageRow) (senders : List SenderDetails)
    (cu : String) :
    List.Pairwise (fun a b => a.createdAt ≤ b.createdAt) (messagesGET ms senders cu)
    ∧ (messagesGET ms senders cu).Perm
        ((ms.filter (messageBelongs cu)).map (attachSender senders))
    ∧ ∀ m ∈ messagesGET ms senders cu,
        ((∃ u ∈ senders, u.uuid = m.senderUuid) →
          ∃ u ∈ senders, u.uuid = m.senderUuid ∧ m.sender = some u)
        ∧ ((∀ u ∈ senders, u.uuid ≠ m.senderUuid) → m.sender = none) := by
  have htrans : ∀ a b c : MessageRow, decide (a.createdAt ≤ b.createdAt) = true →
      decide (b.createdAt ≤ c.createdAt) = true →
      decide (a.createdAt ≤ c.createdAt) = true := by
    intro a b c hab hbc
    rw [decide_eq_true_eq] at *
    omega
  have htotal : ∀ a b : MessageRow,
      (decide (a.createdAt ≤ b.createdAt) || decide (b.createdAt ≤ a.createdAt)) = true := by
    intro a b
    rw [Bool.or_eq_true, decide_eq_true_eq, decide_eq_true_eq]
    omega
  refine ⟨?_, ?_, ?_⟩
  · unfold messagesGET
    rw [List.pairwise_map]
    have hsorted := @List.sorted_mergeSort MessageRow
      (fun a b => decide (a.createdAt ≤ b.createdAt)) htrans htotal
      (ms.filter (messageBelongs cu))
    exact hsorted.imp (fun hab => by simpa using hab)
  · unfold messagesGET
    exact (List.mergeSort_perm (ms.filter (messageBelongs cu)) _).map (attachSender senders)
  · intro m hm
    unfold messagesGET at hm
    obtain ⟨m0, hm0mem, rfl⟩ := List.mem_map.mp hm
    constructor
    · rintro ⟨u, hu, huuid⟩
      cases hjs : jsMapGet SenderDetails.uuid senders m0.senderUuid with
      | some v =>
        obtain ⟨hvmem, hvuuid⟩ :=
          jsMapGet_eq_some_mem SenderDetails.uuid senders m0.senderUuid v hjs
        exact ⟨v, hvmem, hvuuid, hjs⟩
      | none =>
        exact absurd huuid
          ((jsMapGet_eq_none_iff SenderDetails.uuid senders m0.senderUuid).mp hjs u hu)
    · intro hall
      show jsMapGet SenderDetails.uuid senders m0.senderUuid = none
      exact (jsMapGet_eq_none_iff SenderDetails.uuid senders m0.senderUuid).mpr
        (fun u hu => hall u hu)

def w9s1 : SenderDetails :=
  { uuid := "u1"
    firstName := "A"
    lastName := "B"
    fullName := "A B"
    roles := ["mentor"]
    email := "a@example.com"
    profilePictureUrl := "p" }

def w9m1 : MessageRow :=
  { uuid := "m1"
    conversationUuid := "c1"
    senderUuid := "u1"
    text := "hi"
    createdAt := 2
    updatedAt := 2
    deletedAt := none
    readBy := []
    readByAll := false }

def w9m2 : MessageRow :=
  { uuid := "m2"
    conversationUuid := "c1"
    senderUuid := "ghost"
    text := "hello"
    createdAt := 1
    updatedAt := 1
    deletedAt := none
    readBy := []
    readByAll := false }

def w9m3 : MessageRow :=
  { uuid := "m3"
    conversationUuid := "c1"
    senderUuid := "u1"
    text := "gone"
    createdAt := 0
    updatedAt := 0
    deletedAt := some 5
    readBy := []
    readByAll := false }

def w9m4 : MessageRow :=
  { uuid := "m4"
    conversationUuid := "c2"
    senderUuid := "u1"
    text := "other"
    createdAt := 0
    updatedAt := 0
    deletedAt := none
    readBy := []
    readByAll := false }

/-- Witness for C9 on a concrete table with an out-of-order row, a
deleted row, a foreign-conversation row and an unresolved sender. -/
theorem claim9_messages_contract_witness :
    List.Pairwise (fun a b => a.createdAt ≤ b.createdAt)
      (messagesGET [w9m1, w9m2, w9m3, w9m4] [w9s1] "c1")
    ∧ (messagesGET [w9m1, w9m2, w9m3, w9m4] [w9s1] "c1").Perm
        (([w9m1, w9m2, w9m3, w9m4].filter (messageBelongs "c1")).map (attachSender [w9s1]))
    ∧ ∀ m ∈ messagesGET [w9m1, w9m2, w9m3, w9m4] [w9s1] "c1",
        ((∃ u ∈ [w9s1], u.uuid = m.senderUuid) →
          ∃ u ∈ [w9s1], u.uuid = m.senderUuid ∧ m.sender = some u)
        ∧ ((∀ u ∈ [w9s1], u.uuid ≠ m.senderUuid) → m.sender = none) :=
  claim9_messages_contract [w9m1, w9m2, w9m3, w9m4] [w9s1] "c1"
